import Mathlib

/-!
Shallow embedding of the matching / price-delta core of the car-market-insights
repository (backend seeding in `src/unnamed/part_005`, query layer in
`src/backend/src/routes/analytics.js`), with theorems settling the frozen
claims about its natural-language specification.

Numeric SQL values (`NUMERIC`) are modelled as `ℚ`; nullable columns as
`Option`; a raised SQL error (such as division by zero) as the `.error` branch
of `Except Unit`.  Database tables are modelled as Lean lists in physical row
order; where PostgreSQL leaves a choice unspecified (equal `ORDER BY` keys),
the embedding determinizes it as "first row in stored order", and claims that
must hold for every physical order are checked against arbitrary list orders.
-/

namespace CarMarket

/-! ### JavaScript string primitives -/

/-- Whitespace recognized by the JavaScript `\s` class / `String.trim`
(ASCII part; the exotic Unicode space code points do not occur in the data). -/
def isJsWs (c : Char) : Bool :=
  c = ' ' || c = '\t' || c = '\n' || c = '\r' || c = '\x0b' || c = '\x0c'

/-- JavaScript `String.prototype.trim` on a character list. -/
def jsTrimChars (cs : List Char) : List Char :=
  ((cs.dropWhile isJsWs).reverse.dropWhile isJsWs).reverse

/-- JavaScript `String.prototype.trim`. -/
def jsTrim (s : String) : String :=
  String.mk (jsTrimChars s.data)

/-- Splitting on whitespace runs: the accumulator holds the characters of the
current token in reverse. -/
def tokensAux (acc : List Char) : List Char → List String
  | [] => if acc = [] then [] else [String.mk acc.reverse]
  | c :: cs =>
    if isJsWs c then
      if acc = [] then tokensAux [] cs
      else String.mk acc.reverse :: tokensAux [] cs
    else tokensAux (c :: acc) cs

/-- JavaScript `title.trim().split(/\s+/)`: whitespace-run-delimited tokens.
(On a trimmed string `split(/\s+/)` never yields empty tokens, except that the
empty string yields `[""]`; the extractor's `parts[0] || null` collapses that
case to `null`, which the empty-list case here reproduces.) -/
def tokens (s : String) : List String :=
  tokensAux [] (jsTrimChars s.data)

/-- `parts.join(' ')`. -/
def joinSpace : List String → String
  | [] => ""
  | [t] => t
  | t :: ts => t ++ " " ++ joinSpace ts

/-- ASCII letter, as matched by `[A-Z]` under the `i` regex flag. -/
def isAsciiLetter (c : Char) : Bool :=
  ('A' ≤ c && c ≤ 'Z') || ('a' ≤ c && c ≤ 'z')

/-- If `cs` starts with a nonempty run of characters satisfying `p`, return
the remainder after that run (maximal munch), else `none`. -/
def afterRun1 (p : Char → Bool) : List Char → Option (List Char)
  | c :: rest => if p c then some (rest.dropWhile p) else none
  | [] => none

/-- Does the regex `/\s+\d+\.\d+\s*[A-Z]+.*$/i` of `extractMakeModel` match at
the head of `cs`?  The character classes of consecutive pieces are disjoint,
so maximal munch coincides with the regex's backtracking semantics. -/
def engineSuffixAt (cs : List Char) : Bool :=
  match afterRun1 isJsWs cs with
  | none => false
  | some cs1 =>
    match afterRun1 Char.isDigit cs1 with
    | none => false
    | some cs2 =>
      match cs2 with
      | [] => false
      | c2 :: cs3 =>
        if c2 = '.' then
          match afterRun1 Char.isDigit cs3 with
          | none => false
          | some cs4 =>
            match cs4.dropWhile isJsWs with
            | [] => false
            | c :: _ => isAsciiLetter c
        else false

/-- `model.replace(/\s+\d+\.\d+\s*[A-Z]+.*$/i, '')`: delete from the leftmost
position where the engine-code pattern matches through the end of the string. -/
def stripEngine : List Char → List Char
  | [] => []
  | c :: cs => if engineSuffixAt (c :: cs) then [] else c :: stripEngine cs

/-! ### Free-text extractor (`extractMakeModel` in `src/unnamed/part_005`) -/

structure MakeModel where
  make : Option String
  model : Option String
deriving DecidableEq, Repr

/-- The model string cleanup: strip a trailing engine/trim code, then `trim`. -/
def cleanModel (s : String) : String :=
  jsTrim (String.mk (stripEngine s.data))

/-- `extractMakeModel(title)` from `src/unnamed/part_005`: first token is the
make (merging a second token that is literally `Benz`), the rest is the model
minus a trailing engine-code pattern.  `none` models JavaScript `null`. -/
def extractMakeModel (title : String) : MakeModel :=
  if title = "" then ⟨none, none⟩
  else
    match tokens title with
    | [] => ⟨none, none⟩
    | [p0] => ⟨some p0, none⟩
    | p0 :: p1 :: rest =>
      if p1 = "Benz" then
        ⟨some (p0 ++ "-" ++ p1), some (cleanModel (joinSpace rest))⟩
      else
        ⟨some p0, some (cleanModel (joinSpace (p1 :: rest)))⟩

/-! ### Price-delta calculator
(`GET /api/insights/price-delta` in `src/backend/src/routes/analytics.js`) -/

/-- One row of the `prices` table restricted to a model: `(year,
entry_price_eur)`; `entry_price_eur` is a nullable `NUMERIC`. -/
structure PricePoint where
  year : Int
  entry : Option ℚ
deriving DecidableEq, Repr

/-- `ABS(p2.year - COALESCE(l.year, 0))`. -/
def dist (listingYear : Option Int) (y : Int) : Nat :=
  (y - listingYear.getD 0).natAbs

/-- The `LATERAL (... ORDER BY ABS(p2.year - COALESCE(l.year,0)) ASC LIMIT 1)`
subquery: the row minimizing the year distance.  The `ORDER BY` has no
secondary key, so among rows at equal distance PostgreSQL returns an
unspecified one; this embedding determinizes that choice as the first such row
in stored order. -/
def closestPrice (listingYear : Option Int) : List PricePoint → Option PricePoint
  | [] => none
  | p :: ps =>
    match closestPrice listingYear ps with
    | none => some p
    | some q => if dist listingYear q.year < dist listingYear p.year then some q else some p

/-- `ROUND(x, 2)` on PostgreSQL `NUMERIC` rounds half away from zero. -/
def halfAway (q : ℚ) : Int :=
  if 0 ≤ q then ⌊q + 1 / 2⌋ else -⌊-q + 1 / 2⌋

/-- Round to 2 decimal places, half away from zero (PostgreSQL `ROUND(·, 2)`). -/
def round2 (q : ℚ) : ℚ :=
  (halfAway (q * 100) : ℚ) / 100

/-- The delta columns computed for one listing: `original_price`,
`original_year`, `price_delta`, `price_delta_percent`. -/
structure DeltaOut where
  refPrice : ℚ
  refYear : Int
  delta : ℚ
  deltaPercent : ℚ
deriving DecidableEq, Repr

instance {ε α : Type} [DecidableEq ε] [DecidableEq α] : DecidableEq (Except ε α) := fun a b =>
  match a, b with
  | .error x, .error y =>
    if h : x = y then .isTrue (by rw [h]) else .isFalse (by intro hc; cases hc; exact h rfl)
  | .error _, .ok _ => .isFalse (by intro hc; cases hc)
  | .ok _, .error _ => .isFalse (by intro hc; cases hc)
  | .ok x, .ok y =>
    if h : x = y then .isTrue (by rw [h]) else .isFalse (by intro hc; cases hc; exact h rfl)

/-- The per-listing delta computation of the `price_matches` CTE: select the
closest-year reference row, require both the reference price and the listing
price non-null (the unconditional `WHERE` filters), then compute
`price_delta = entry - price` and
`price_delta_percent = ROUND((entry - price) / entry * 100, 2)`.
`.ok none` models the listing being filtered out (NULL result);
`.error ()` models a raised SQL error: the division `/ entry` raises
`division by zero` when the selected `entry_price_eur` is `0`. -/
def computeDelta (listingPrice : Option ℚ) (listingYear : Option Int)
    (referencePrices : List PricePoint) : Except Unit (Option DeltaOut) :=
  match closestPrice listingYear referencePrices with
  | none => .ok none
  | some p =>
    match p.entry, listingPrice with
    | some e, some lp =>
        if e = 0 then .error ()
        else .ok (some ⟨e, p.year, e - lp, round2 ((e - lp) / e * 100)⟩)
    | _, _ => .ok none

/-! ### Lemmas about the closest-year selection -/

theorem closestPrice_eq_none {ly : Option Int} {ps : List PricePoint} :
    closestPrice ly ps = none ↔ ps = [] := by
  cases ps with
  | nil => simp [closestPrice]
  | cons a as =>
    simp only [closestPrice]
    cases closestPrice ly as with
    | none => simp
    | some q => by_cases h : dist ly q.year < dist ly a.year <;> simp [h]

theorem closestPrice_mem {ly : Option Int} {ps : List PricePoint} {p : PricePoint}
    (h : closestPrice ly ps = some p) : p ∈ ps := by
  induction ps with
  | nil => simp [closestPrice] at h
  | cons a as ih =>
    simp only [closestPrice] at h
    cases hc : closestPrice ly as with
    | none => simp only [hc] at h; cases h; simp
    | some q =>
      simp only [hc] at h
      by_cases hlt : dist ly q.year < dist ly a.year
      · rw [if_pos hlt] at h; cases h; exact List.mem_cons_of_mem _ (ih hc)
      · rw [if_neg hlt] at h; cases h; simp

theorem closestPrice_min {ly : Option Int} {ps : List PricePoint} {p : PricePoint}
    (h : closestPrice ly ps = some p) :
    ∀ q ∈ ps, dist ly p.year ≤ dist ly q.year := by
  induction ps generalizing p with
  | nil => simp [closestPrice] at h
  | cons a as ih =>
    simp only [closestPrice] at h
    cases hc : closestPrice ly as with
    | none =>
      simp only [hc] at h
      cases h
      rw [closestPrice_eq_none] at hc
      subst hc
      intro q hq
      rw [List.mem_singleton] at hq
      subst hq
      exact le_refl _
    | some q =>
      simp only [hc] at h
      by_cases hlt : dist ly q.year < dist ly a.year
      · rw [if_pos hlt] at h
        cases h
        intro r hr
        rcases List.mem_cons.1 hr with rfl | hr
        · exact le_of_lt hlt
        · exact ih hc r hr
      · rw [if_neg hlt] at h
        cases h
        intro r hr
        rcases List.mem_cons.1 hr with rfl | hr
        · exact le_refl _
        · exact le_trans (not_lt.1 hlt) (ih hc r hr)

/-- Inversion for the delta computation: a successful non-null result comes
from a closest row with non-null price `e ≠ 0` and non-null listing price. -/
theorem computeDelta_ok_some {lp : ℚ} {ly : Option Int} {ps : List PricePoint} {d : DeltaOut}
    (h : computeDelta (some lp) ly ps = .ok (some d)) :
    ∃ p, closestPrice ly ps = some p ∧ p.entry = some d.refPrice ∧ p.year = d.refYear ∧
      d.refPrice ≠ 0 ∧ d.delta = d.refPrice - lp ∧
      d.deltaPercent = round2 ((d.refPrice - lp) / d.refPrice * 100) := by
  unfold computeDelta at h
  cases hc : closestPrice ly ps with
  | none => rw [hc] at h; simp at h
  | some p =>
    rw [hc] at h
    cases hE : p.entry with
    | none => simp only [hE] at h; simp at h
    | some e =>
      simp only [hE] at h
      by_cases hz : e = 0
      · rw [if_pos hz] at h; simp at h
      · rw [if_neg hz] at h
        simp only [Except.ok.injEq, Option.some.injEq] at h
        subst h
        exact ⟨p, rfl, hE, rfl, hz, rfl, rfl⟩

/-- C1 (code_bug): the spec says every degenerate input (empty reference list,
null/non-positive listing price, zero/null selected reference price) yields a
null result and never an error.  The code violates this twice: a zero selected
reference price makes the SQL division `/ p.entry_price_eur` raise a
division-by-zero error (propagated as a 500 response, not a null result), and
a non-positive listing price is not excluded at all — the row is returned with
a computed delta instead of a null result.  The remaining degenerate cases
(empty list, null listing price, null reference price) do produce null. -/
theorem c1_degenerate_inputs_evidence :
    computeDelta (some 100) (some 2015) [⟨2015, some 0⟩] = .error () ∧
    computeDelta (some 0) (some 2015) [⟨2015, some 20000⟩] =
      .ok (some ⟨20000, 2015, 20000, 100⟩) ∧
    computeDelta (some (-5)) (some 2015) [⟨2015, some 20000⟩] =
      .ok (some ⟨20000, 2015, 20005, 10003 / 100⟩) ∧
    computeDelta none (some 2015) [⟨2015, some 20000⟩] = .ok none ∧
    computeDelta (some 100) (some 2015) ([] : List PricePoint) = .ok none ∧
    computeDelta (some 100) (some 2015) [⟨2015, none⟩] = .ok none := by
  refine ⟨?_, ?_, ?_, ?_, ?_, ?_⟩ <;>
    simp [computeDelta, closestPrice, dist, round2, halfAway] <;> norm_num

/-- C2 (corrected), counterexample: the claim says that among reference rows at
equal year distance the one with the smaller year is always selected, so that
`computeDelta(18000, 2015, [{2014,20000},{2016,22000}])` gives delta `2000`.
But the SQL `ORDER BY ABS(p2.year - COALESCE(l.year,0))` has no tie-break on
the year: with the same two rows stored in the order `2016, 2014` the `2016`
row is selected, giving delta `4000` and percent `18.18`, not the claimed
`2014` row. -/
theorem c2_tiebreak_counterexample :
    computeDelta (some 18000) (some 2015) [⟨2016, some 22000⟩, ⟨2014, some 20000⟩] =
      .ok (some ⟨22000, 2016, 4000, 909 / 50⟩) ∧
    computeDelta (some 18000) (some 2015) [⟨2016, some 22000⟩, ⟨2014, some 20000⟩] ≠
      .ok (some ⟨20000, 2014, 2000, 10⟩) := by
  have h1 : computeDelta (some 18000) (some 2015) [⟨2016, some 22000⟩, ⟨2014, some 20000⟩] =
      .ok (some ⟨22000, 2016, 4000, 909 / 50⟩) := by
    simp [computeDelta, closestPrice, dist, round2, halfAway]
    norm_num
  refine ⟨h1, ?_⟩
  rw [h1]
  intro hcontra
  simp only [Except.ok.injEq, Option.some.injEq, DeltaOut.mk.injEq] at hcontra
  norm_num at hcontra

/-- C2 (amended): the selected reference point always minimizes
`ABS(year - COALESCE(listingYear, 0))` over the reference rows, but ties are
resolved by physical row order (the first minimizing row in stored order), not
by the smaller year; with the tied rows stored in ascending year order the
claim's example does select the 2014 point, giving delta 2000 and
deltaPercent 10.0. -/
theorem c2_closest_year_selection :
    (∀ (lp : ℚ) (ly : Option Int) (ps : List PricePoint) (d : DeltaOut),
        computeDelta (some lp) ly ps = .ok (some d) →
        ∃ p, p ∈ ps ∧ p.entry = some d.refPrice ∧ p.year = d.refYear ∧
          ∀ q ∈ ps, dist ly p.year ≤ dist ly q.year) ∧
    computeDelta (some 18000) (some 2015) [⟨2014, some 20000⟩, ⟨2016, some 22000⟩] =
      .ok (some ⟨20000, 2014, 2000, 10⟩) := by
  constructor
  · intro lp ly ps d h
    obtain ⟨p, hc, hE, hy, -, -, -⟩ := computeDelta_ok_some h
    exact ⟨p, closestPrice_mem hc, hE, hy, closestPrice_min hc⟩
  · simp [computeDelta, closestPrice, dist, round2, halfAway]
    norm_num

/-- Witness for C2's amended theorem at the claim's own example input. -/
theorem c2_closest_year_selection_witness :
    ∃ p, p ∈ [(⟨2014, some 20000⟩ : PricePoint), ⟨2016, some 22000⟩] ∧
      p.entry = some ((⟨20000, 2014, 2000, 10⟩ : DeltaOut).refPrice) ∧
      p.year = (⟨20000, 2014, 2000, 10⟩ : DeltaOut).refYear ∧
      ∀ q ∈ [(⟨2014, some 20000⟩ : PricePoint), ⟨2016, some 22000⟩],
        dist (some 2015) p.year ≤ dist (some 2015) q.year :=
  c2_closest_year_selection.1 18000 (some 2015) _ _ c2_closest_year_selection.2

/-- C3 (confirmed): whenever a reference price is selected,
`delta = referencePrice - listingPrice` and
`deltaPercent = ROUND(delta / referencePrice * 100, 2)`, with positive delta
exactly when the listing is cheaper than the reference and negative exactly
when it is pricier; in particular
`computeDelta(25000, 2015, [{2014, 20000}])` gives delta `-5000` and
deltaPercent `-25.0`. -/
theorem c3_delta_formula_and_sign :
    (∀ (lp : ℚ) (ly : Option Int) (ps : List PricePoint) (d : DeltaOut),
        computeDelta (some lp) ly ps = .ok (some d) →
        d.delta = d.refPrice - lp ∧
        d.deltaPercent = round2 (d.delta / d.refPrice * 100) ∧
        (0 < d.delta ↔ lp < d.refPrice) ∧ (d.delta < 0 ↔ d.refPrice < lp)) ∧
    computeDelta (some 25000) (some 2015) [⟨2014, some 20000⟩] =
      .ok (some ⟨20000, 2014, -5000, -25⟩) := by
  constructor
  · intro lp ly ps d h
    obtain ⟨p, -, -, -, -, hdelta, hpct⟩ := computeDelta_ok_some h
    refine ⟨hdelta, by rw [hdelta]; exact hpct, ?_, ?_⟩
    · rw [hdelta]; constructor
      · intro hpos; linarith
      · intro hlt; linarith
    · rw [hdelta]; constructor
      · intro hneg; linarith
      · intro hlt; linarith
  · simp [computeDelta, closestPrice, dist, round2, halfAway]
    norm_num

/-- Witness for C3 at the claim's own example input. -/
theorem c3_delta_formula_and_sign_witness :
    (⟨20000, 2014, -5000, -25⟩ : DeltaOut).delta =
        (⟨20000, 2014, -5000, -25⟩ : DeltaOut).refPrice - 25000 ∧
      (⟨20000, 2014, -5000, -25⟩ : DeltaOut).deltaPercent =
        round2 ((⟨20000, 2014, -5000, -25⟩ : DeltaOut).delta /
          (⟨20000, 2014, -5000, -25⟩ : DeltaOut).refPrice * 100) ∧
      (0 < (⟨20000, 2014, -5000, -25⟩ : DeltaOut).delta ↔
        (25000 : ℚ) < (⟨20000, 2014, -5000, -25⟩ : DeltaOut).refPrice) ∧
      ((⟨20000, 2014, -5000, -25⟩ : DeltaOut).delta < 0 ↔
        (⟨20000, 2014, -5000, -25⟩ : DeltaOut).refPrice < 25000) :=
  c3_delta_formula_and_sign.1 25000 (some 2015) _ _ c3_delta_formula_and_sign.2

/-! ### SQL `ILIKE` pattern matching and the reconciliation matcher
(`seedListings` in `src/unnamed/part_005`) -/

/-- Case folding used by `ILIKE` comparisons. -/
def foldCase (c : Char) : Char := c.toLower

/-- Scanning helper for a `%` wildcard: try the continuation `f` at every
drop point of the text. -/
def likeScanWith (f : List Char → Bool) : List Char → Bool
  | [] => f []
  | t :: ts => f (t :: ts) || likeScanWith f ts

/-- PostgreSQL `LIKE` matching with case folding (`ILIKE`): `%` matches any
character sequence, `_` any single character, every other pattern character
matches itself up to case.  (Backslash escape sequences never occur in the
patterns this code builds, so they are not modelled.)  The `%` case scans all
drop points of the text, which is exactly the backtracking semantics. -/
def likeRec : List Char → List Char → Bool
  | [], ts => ts.isEmpty
  | p :: ps, ts =>
    if p = '%' then likeScanWith (likeRec ps) ts
    else
      match ts with
      | [] => false
      | t :: ts2 =>
        if p = '_' then likeRec ps ts2
        else (foldCase p = foldCase t) && likeRec ps ts2

/-- `pattern ILIKE`-matches `text`. -/
def likeMatch (pattern text : String) : Bool :=
  likeRec pattern.data text.data

/-- A row of the `makers` table. -/
structure MakerRow where
  id : Nat
  name : String
deriving DecidableEq, Repr

/-- A row of the `models` table. -/
structure ModelRow where
  id : Nat
  maker_id : Nat
  name : String
  genmodel_id : String
deriving DecidableEq, Repr

/-- `SELECT id FROM makers WHERE name ILIKE $1 LIMIT 1` with the raw extracted
make as the whole pattern (no `%` wrapping). -/
def findMaker (makers : List MakerRow) (make : String) : Option MakerRow :=
  makers.find? (fun r => likeMatch make r.name)

/-- JavaScript `model.split(' ')[0]`: the first token delimited by a literal
space character. -/
def firstSpaceTok (s : String) : String :=
  String.mk (s.data.takeWhile (fun c => c ≠ ' '))

/-- `SELECT id FROM models WHERE maker_id = $1 AND name ILIKE $2 LIMIT 1`
with pattern `'%' + model.split(' ')[0] + '%'`. -/
def findModel (models : List ModelRow) (makerId : Nat) (model : String) : Option ModelRow :=
  models.find? (fun r =>
    (r.maker_id == makerId) && likeMatch ("%" ++ firstSpaceTok model ++ "%") r.name)

/-- The reconciliation matcher inside `seedListings`: `if (make && model)`
(both non-null and non-empty) look up the maker, then the model, returning the
matched model id; any miss yields `null`. -/
def matchListing (makers : List MakerRow) (models : List ModelRow)
    (make model : Option String) : Option Nat :=
  match make, model with
  | some mk, some md =>
    if mk = "" ∨ md = "" then none
    else
      match findMaker makers mk with
      | none => none
      | some mr =>
        match findModel models mr.id md with
        | none => none
        | some m => some m.id
  | _, _ => none

/-! Specification-side comparison predicates, used to characterize what the
`ILIKE` patterns built by the matcher actually test. -/

/-- Case-insensitive equality of character lists (specification side). -/
def eqCI : List Char → List Char → Bool
  | [], [] => true
  | a :: as, b :: bs => (foldCase a = foldCase b) && eqCI as bs
  | _, _ => false

/-- `t` occurs case-insensitively at the head of `s` (specification side). -/
def leadsCI : List Char → List Char → Bool
  | [], _ => true
  | _ :: _, [] => false
  | a :: ts, b :: ss => (foldCase a = foldCase b) && leadsCI ts ss

/-- `t` occurs case-insensitively somewhere inside `s` (specification side). -/
def subCI (t : List Char) : List Char → Bool
  | [] => leadsCI t []
  | c :: ss => leadsCI t (c :: ss) || subCI t ss

/-- The spec's "case-insensitive contains": `needle` occurs in `hay`. -/
def containsCI (hay needle : String) : Bool :=
  subCI needle.data hay.data

/-- A pattern (piece) without `LIKE` wildcards. -/
def noWild (p : List Char) : Prop :=
  ∀ c ∈ p, c ≠ '%' ∧ c ≠ '_'

theorem likeRec_eq_eqCI {p : List Char} (hp : noWild p) (t : List Char) :
    likeRec p t = eqCI p t := by
  induction p generalizing t with
  | nil => cases t <;> rfl
  | cons a as ih =>
    have ha := hp a (List.mem_cons_self a as)
    have has : noWild as := fun c hc => hp c (List.mem_cons_of_mem _ hc)
    cases t with
    | nil => simp [likeRec, eqCI, ha.1]
    | cons b bs =>
      simp only [likeRec, if_neg ha.1, if_neg ha.2, eqCI]
      rw [ih has bs]

theorem likeRec_pct_all (t : List Char) : likeRec ['%'] t = true := by
  induction t with
  | nil => rfl
  | cons c cs ih =>
    simp [likeRec, likeScanWith] at ih ⊢
    simp [ih]

theorem likeRec_append_pct {t : List Char} (ht : noWild t) (s : List Char) :
    likeRec (t ++ ['%']) s = leadsCI t s := by
  induction t generalizing s with
  | nil => simp only [List.nil_append, leadsCI]; exact likeRec_pct_all s
  | cons a as ih =>
    have ha := ht a (List.mem_cons_self a as)
    have has : noWild as := fun c hc => ht c (List.mem_cons_of_mem _ hc)
    cases s with
    | nil => simp [likeRec, leadsCI, ha.1]
    | cons b bs =>
      simp only [List.cons_append, likeRec, if_neg ha.1, if_neg ha.2, leadsCI, List.append_eq]
      rw [ih has bs]

theorem likeRec_pct_wrap {t : List Char} (ht : noWild t) (s : List Char) :
    likeRec ('%' :: (t ++ ['%'])) s = subCI t s := by
  induction s with
  | nil =>
    simp only [likeRec, if_true, ite_true, likeScanWith, subCI, reduceIte]
    rw [likeRec_append_pct ht]
  | cons c cs ih =>
    simp only [likeRec, if_true, ite_true, likeScanWith, subCI, reduceIte] at ih ⊢
    rw [likeRec_append_pct ht, ih]

theorem find?_congr {α : Type} {p q : α → Bool} (h : ∀ a, p a = q a) :
    ∀ l : List α, l.find? p = l.find? q := by
  intro l
  induction l with
  | nil => rfl
  | cons a as ih => simp only [List.find?, h a, ih]

/-- C6 (corrected), counterexample: the claim says the maker is looked up by a
case-insensitive exact-or-contains match.  The code runs `name ILIKE $1` with
the raw extracted make as the whole pattern — no `%` wrapping — which is a
case-insensitive *exact* match: a maker whose name merely contains the make
("BMW Group" vs "BMW") is not found, although the exact match is indeed
case-insensitive ("bmw" is found for "BMW"). -/
theorem c6_maker_lookup_counterexample :
    findMaker [⟨1, "BMW Group"⟩] "BMW" = none ∧
    containsCI "BMW Group" "BMW" = true ∧
    findMaker [⟨1, "bmw"⟩] "BMW" = some ⟨1, "bmw"⟩ := by
  refine ⟨by decide, by decide, by decide⟩

/-- C6 (amended): for wildcard-free extracted text, the maker lookup is a
case-insensitive *exact* match of the make against `Maker.name` (first match
wins, `none` if no match), and the model lookup is a case-insensitive
substring match of only the first space-delimited token of the extracted
model against `Model.name` (first match wins). -/
theorem c6_matcher_lookup_semantics :
    (∀ (makers : List MakerRow) (make : String), noWild make.data →
        findMaker makers make = makers.find? (fun r => eqCI make.data r.name.data)) ∧
    (∀ (models : List ModelRow) (makerId : Nat) (model : String),
        noWild (firstSpaceTok model).data →
        findModel models makerId model =
          models.find? (fun r =>
            (r.maker_id == makerId) && containsCI r.name (firstSpaceTok model))) := by
  constructor
  · intro makers make hw
    exact find?_congr (fun r => by unfold likeMatch; rw [likeRec_eq_eqCI hw]) makers
  · intro models makerId model hw
    refine find?_congr (fun r => ?_) models
    unfold likeMatch containsCI
    congr 1
    have hdata : ("%" ++ firstSpaceTok model ++ "%").data =
        '%' :: ((firstSpaceTok model).data ++ ['%']) := by
      simp [String.data_append]
    rw [hdata, likeRec_pct_wrap hw]

/-- Witness for C6's amended theorem at concrete catalogs. -/
theorem c6_matcher_lookup_semantics_witness :
    findMaker [⟨1, "bmw"⟩] "BMW" =
      [(⟨1, "bmw"⟩ : MakerRow)].find? (fun r => eqCI "BMW".data r.name.data) ∧
    findModel [⟨7, 1, "Octavia", "g1"⟩] 1 "Fabia Combi" =
      [(⟨7, 1, "Octavia", "g1"⟩ : ModelRow)].find? (fun r =>
        (r.maker_id == 1) && containsCI r.name (firstSpaceTok "Fabia Combi")) :=
  ⟨c6_matcher_lookup_semantics.1 _ "BMW" (by unfold noWild; decide),
   c6_matcher_lookup_semantics.2 _ 1 "Fabia Combi" (by unfold noWild; decide)⟩

/-! ### Characterizing the engine-code regex for the extractor claims -/

theorem all_takeWhile {p : Char → Bool} (l : List Char) :
    ∀ x ∈ l.takeWhile p, p x = true := by
  induction l with
  | nil => simp [List.takeWhile]
  | cons a as ih =>
    intro x hx
    rw [List.takeWhile_cons] at hx
    by_cases ha : p a
    · rw [if_pos ha] at hx
      rcases List.mem_cons.1 hx with rfl | hx
      · exact ha
      · exact ih x hx
    · rw [if_neg ha] at hx
      exact absurd hx (List.not_mem_nil x)

theorem dropWhile_head_not {p : Char → Bool} (l : List Char) :
    ∀ y ∈ (l.dropWhile p).head?, p y = false := by
  induction l with
  | nil => simp [List.dropWhile]
  | cons x xs ih =>
    rw [List.dropWhile_cons]
    by_cases hx : p x
    · rw [if_pos hx]; exact ih
    · rw [if_neg hx]
      intro y hy
      simp only [List.head?_cons, Option.mem_def, Option.some.injEq] at hy
      subst hy
      exact Bool.not_eq_true _ ▸ by simpa using hx

theorem dropWhile_all_append {p : Char → Bool} {a : List Char} (b : List Char)
    (ha : ∀ x ∈ a, p x = true) : (a ++ b).dropWhile p = b.dropWhile p := by
  induction a with
  | nil => rfl
  | cons x xs ih =>
    rw [List.cons_append, List.dropWhile_cons, if_pos (ha x (List.mem_cons_self x xs))]
    exact ih (fun y hy => ha y (List.mem_cons_of_mem _ hy))

theorem dropWhile_head_false {p : Char → Bool} {b : List Char}
    (hb : ∀ y ∈ b.head?, p y = false) : b.dropWhile p = b := by
  cases b with
  | nil => rfl
  | cons y ys =>
    rw [List.dropWhile_cons, if_neg]
    simp only [List.head?_cons, Option.mem_def, Option.some.injEq, forall_eq] at hb
    simp [hb]

/-- `afterRun1 p cs = some rest` exactly when `cs` splits as a nonempty run of
`p`-characters followed by `rest`, whose head (if any) fails `p`. -/
theorem afterRun1_iff {p : Char → Bool} {cs rest : List Char} :
    afterRun1 p cs = some rest ↔
      ∃ a, cs = a ++ rest ∧ a ≠ [] ∧ (∀ x ∈ a, p x = true) ∧
        ∀ y ∈ rest.head?, p y = false := by
  constructor
  · intro h
    cases cs with
    | nil => simp [afterRun1] at h
    | cons c tail =>
      simp only [afterRun1] at h
      by_cases hc : p c
      · rw [if_pos hc] at h
        injection h with h
        refine ⟨c :: tail.takeWhile p, ?_, by simp, ?_, ?_⟩
        · rw [← h, List.cons_append, List.takeWhile_append_dropWhile]
        · intro x hx
          rcases List.mem_cons.1 hx with rfl | hx
          · exact hc
          · exact all_takeWhile tail x hx
        · rw [← h]; exact dropWhile_head_not tail
      · rw [if_neg hc] at h; cases h
  · rintro ⟨a, rfl, hne, hall, hhead⟩
    cases a with
    | nil => exact absurd rfl hne
    | cons x xs =>
      rw [List.cons_append]
      simp only [afterRun1]
      rw [if_pos (hall x (List.mem_cons_self x xs))]
      rw [dropWhile_all_append rest (fun y hy => hall y (List.mem_cons_of_mem _ hy)),
        dropWhile_head_false hhead]

theorem isJsWs_char_cases {c : Char} (h : isJsWs c = true) :
    c = ' ' ∨ c = '\t' ∨ c = '\n' ∨ c = '\r' ∨ c = '\x0b' ∨ c = '\x0c' := by
  simp only [isJsWs, Bool.or_eq_true, decide_eq_true_eq] at h
  tauto

theorem digit_not_isJsWs {c : Char} (h : c.isDigit = true) : isJsWs c = false := by
  cases hb : isJsWs c with
  | false => rfl
  | true =>
    rcases isJsWs_char_cases hb with rfl | rfl | rfl | rfl | rfl | rfl <;>
      exact absurd h (by decide)

theorem letter_not_isJsWs {c : Char} (h : isAsciiLetter c = true) : isJsWs c = false := by
  cases hb : isJsWs c with
  | false => rfl
  | true =>
    rcases isJsWs_char_cases hb with rfl | rfl | rfl | rfl | rfl | rfl <;>
      exact absurd h (by decide)

theorem letter_not_digit {c : Char} (h : isAsciiLetter c = true) : c.isDigit = false := by
  cases hd : c.isDigit with
  | false => rfl
  | true =>
    exfalso
    simp only [Char.isDigit, Bool.and_eq_true, decide_eq_true_eq, ge_iff_le] at hd
    simp only [isAsciiLetter, Bool.or_eq_true, Bool.and_eq_true, decide_eq_true_eq] at h
    obtain ⟨hd1, hd2⟩ := hd
    rw [UInt32.le_def] at hd1 hd2
    simp only [BitVec.le_def] at hd1 hd2
    rcases h with ⟨h1, h2⟩ | ⟨h1, h2⟩ <;>
      (simp only [Char.le_def, UInt32.le_def, BitVec.le_def] at h1 h2
       simp at h1 h2 hd1 hd2
       omega)

theorem isJsWs_not_digit {c : Char} (h : isJsWs c = true) : c.isDigit = false := by
  rcases isJsWs_char_cases h with rfl | rfl | rfl | rfl | rfl | rfl <;> decide

/-- The engine-code cut pattern of `/\s+\d+\.\d+\s*[A-Z]+.*$/i`, stated as an
explicit decomposition: a nonempty whitespace run, a nonempty digit run, a
dot, a nonempty digit run, a (possibly empty) whitespace run, and an ASCII
letter of either case (the regex has the `i` flag); anything may follow. -/
def isEngineCut (cs : List Char) : Prop :=
  ∃ w d1 d2 w2 c rest,
    cs = w ++ d1 ++ '.' :: (d2 ++ w2 ++ c :: rest) ∧
    w ≠ [] ∧ (∀ x ∈ w, isJsWs x = true) ∧
    d1 ≠ [] ∧ (∀ x ∈ d1, x.isDigit = true) ∧
    d2 ≠ [] ∧ (∀ x ∈ d2, x.isDigit = true) ∧
    (∀ x ∈ w2, isJsWs x = true) ∧ isAsciiLetter c = true

/-- Helper for the backward direction of `engineSuffixAt_iff`: any cut
decomposition makes the matcher succeed. -/
theorem engineSuffixAt_of_parts {w d1 d2 w2 rest : List Char} {c : Char}
    (hwne : w ≠ []) (hwall : ∀ x ∈ w, isJsWs x = true)
    (hd1ne : d1 ≠ []) (hd1all : ∀ x ∈ d1, x.isDigit = true)
    (hd2ne : d2 ≠ []) (hd2all : ∀ x ∈ d2, x.isDigit = true)
    (hw2all : ∀ x ∈ w2, isJsWs x = true) (hc : isAsciiLetter c = true) :
    engineSuffixAt (w ++ (d1 ++ '.' :: (d2 ++ (w2 ++ c :: rest)))) = true := by
  obtain ⟨e1, d1x, rfl⟩ := List.exists_cons_of_ne_nil hd1ne
  obtain ⟨e2, d2x, rfl⟩ := List.exists_cons_of_ne_nil hd2ne
  have h1 : afterRun1 isJsWs (w ++ ((e1 :: d1x) ++ '.' :: ((e2 :: d2x) ++ (w2 ++ c :: rest)))) =
      some ((e1 :: d1x) ++ '.' :: ((e2 :: d2x) ++ (w2 ++ c :: rest))) := by
    refine afterRun1_iff.mpr ⟨w, rfl, hwne, hwall, ?_⟩
    intro y hy
    simp only [List.cons_append, List.head?_cons, Option.mem_def, Option.some.injEq] at hy
    subst hy
    exact digit_not_isJsWs (hd1all e1 (List.mem_cons_self _ _))
  have h2 : afterRun1 Char.isDigit ((e1 :: d1x) ++ '.' :: ((e2 :: d2x) ++ (w2 ++ c :: rest))) =
      some ('.' :: ((e2 :: d2x) ++ (w2 ++ c :: rest))) := by
    refine afterRun1_iff.mpr ⟨e1 :: d1x, rfl, by simp, hd1all, ?_⟩
    intro y hy
    simp only [List.head?_cons, Option.mem_def, Option.some.injEq] at hy
    subst hy
    decide
  have h4 : afterRun1 Char.isDigit ((e2 :: d2x) ++ (w2 ++ c :: rest)) =
      some (w2 ++ c :: rest) := by
    refine afterRun1_iff.mpr ⟨e2 :: d2x, rfl, by simp, hd2all, ?_⟩
    intro y hy
    cases w2 with
    | nil =>
      simp only [List.nil_append, List.head?_cons, Option.mem_def, Option.some.injEq] at hy
      subst hy
      exact letter_not_digit hc
    | cons z w2x =>
      simp only [List.cons_append, List.head?_cons, Option.mem_def, Option.some.injEq] at hy
      subst hy
      exact isJsWs_not_digit (hw2all z (List.mem_cons_self _ _))
  have h5 : (w2 ++ c :: rest).dropWhile isJsWs = c :: rest := by
    rw [dropWhile_all_append _ hw2all]
    apply dropWhile_head_false
    intro y hy
    simp only [List.head?_cons, Option.mem_def, Option.some.injEq] at hy
    subst hy
    exact letter_not_isJsWs hc
  unfold engineSuffixAt
  simp only [h1, h2, reduceIte, h4, h5]
  exact hc

/-- The matcher `engineSuffixAt` recognizes exactly the cut pattern: because
consecutive pieces of the regex draw from disjoint character classes, the
maximal-munch implementation coincides with the existential (backtracking)
semantics. -/
theorem engineSuffixAt_iff (cs : List Char) :
    engineSuffixAt cs = true ↔ isEngineCut cs := by
  constructor
  · intro h
    unfold engineSuffixAt at h
    cases h1 : afterRun1 isJsWs cs with
    | none => simp [h1] at h
    | some cs1 =>
      simp only [h1] at h
      cases h2 : afterRun1 Char.isDigit cs1 with
      | none => simp [h2] at h
      | some cs2 =>
        simp only [h2] at h
        cases hcs2 : cs2 with
        | nil => simp [hcs2] at h
        | cons c2 cs3 =>
          simp only [hcs2] at h
          by_cases hdot : c2 = '.'
          · rw [if_pos hdot] at h
            subst hdot
            cases h4 : afterRun1 Char.isDigit cs3 with
            | none => simp [h4] at h
            | some cs4 =>
              simp only [h4] at h
              cases h5 : cs4.dropWhile isJsWs with
              | nil => simp [h5] at h
              | cons c rest =>
                simp only [h5] at h
                obtain ⟨w, hw, hwne, hwall, -⟩ := afterRun1_iff.mp h1
                obtain ⟨d1, hd1, hd1ne, hd1all, -⟩ := afterRun1_iff.mp h2
                obtain ⟨d2, hd2, hd2ne, hd2all, -⟩ := afterRun1_iff.mp h4
                refine ⟨w, d1, d2, cs4.takeWhile isJsWs, c, rest, ?_, hwne, hwall,
                  hd1ne, hd1all, hd2ne, hd2all, all_takeWhile cs4, h⟩
                have hcs4 : cs4 = cs4.takeWhile isJsWs ++ (c :: rest) := by
                  rw [← h5, List.takeWhile_append_dropWhile]
                rw [hw, hd1, hcs2, hd2]
                have hstep : d2 ++ cs4 = d2 ++ (cs4.takeWhile isJsWs ++ (c :: rest)) := by
                  rw [← hcs4]
                rw [hstep]
                simp [List.append_assoc]
          · rw [if_neg hdot] at h
            exact absurd h (by simp)
  · rintro ⟨w, d1, d2, w2, c, rest, rfl, hwne, hwall, hd1ne, hd1all, hd2ne, hd2all, hw2all, hc⟩
    have hparts := @engineSuffixAt_of_parts w d1 d2 w2 rest c
      hwne hwall hd1ne hd1all hd2ne hd2all hw2all hc
    have hshape : w ++ d1 ++ '.' :: (d2 ++ w2 ++ c :: rest) =
        w ++ (d1 ++ '.' :: (d2 ++ (w2 ++ c :: rest))) := by
      simp [List.append_assoc]
    rw [hshape]
    exact hparts

/-- C5 (corrected), counterexample: the claim says only a trailing
"<decimal> <UPPERCASE code>" suffix is stripped (a lowercase code being
retained), and that any title whose first two tokens are not "Mercedes Benz"
keeps its first token as the make.  The code's regex carries the `i` flag, so
the lowercase suffix "2.0 tsi" is stripped as well; and the `Benz` merge
tests only the second token, so "Audi Benz X" yields make "Audi-Benz", not
"Audi". -/
theorem c5_extract_counterexample :
    extractMakeModel "Skoda Octavia 2.0 tsi" = ⟨some "Skoda", some "Octavia"⟩ ∧
    extractMakeModel "Skoda Octavia 2.0 tsi" ≠ ⟨some "Skoda", some "Octavia 2.0 tsi"⟩ ∧
    extractMakeModel "Audi Benz X" = ⟨some "Audi-Benz", some "X"⟩ ∧
    extractMakeModel "Audi Benz X" ≠ ⟨some "Audi", some "Benz X"⟩ := by
  refine ⟨by decide, by decide, by decide, by decide⟩

/-- C5 (amended): for every title with at least two whitespace tokens whose
*second token* is not the literal "Benz", the extractor returns make = the
first token and model = the remaining tokens joined with single spaces, with
the leftmost match of the engine-code pattern stripped *case-insensitively*
through the end and the result trimmed; the second conjunct pins down the
stripped pattern exactly (nonempty whitespace run, decimal number, optional
whitespace, then an ASCII letter of either case). -/
theorem c5_extract_first_token_model_join :
    (∀ (title p0 p1 : String) (rest : List String),
        tokens title = p0 :: p1 :: rest → p1 ≠ "Benz" →
        extractMakeModel title = ⟨some p0, some (cleanModel (joinSpace (p1 :: rest)))⟩) ∧
    (∀ cs : List Char, engineSuffixAt cs = true ↔ isEngineCut cs) := by
  constructor
  · intro title p0 p1 rest htok hb
    have hne : title ≠ "" := by
      intro h0
      rw [h0] at htok
      have : tokens "" = [] := rfl
      rw [this] at htok
      exact List.noConfusion htok
    unfold extractMakeModel
    rw [if_neg hne]
    simp only [htok]
    rw [if_neg hb]
  · exact engineSuffixAt_iff

/-- Witness for C5's amended theorem at the spec's own example title. -/
theorem c5_extract_first_token_model_join_witness :
    extractMakeModel "Skoda Octavia Octavia Combi 2.0 TSI" =
      ⟨some "Skoda",
       some (cleanModel (joinSpace ["Octavia", "Octavia", "Combi", "2.0", "TSI"]))⟩ :=
  c5_extract_first_token_model_join.1 "Skoda Octavia Octavia Combi 2.0 TSI" "Skoda"
    "Octavia" ["Octavia", "Combi", "2.0", "TSI"] (by decide) (by decide)

/-! ### Sort-key resolution
(`sortBy` handling in `GET /api/insights/price-delta`) -/

/-- The `ORDER BY` columns reachable through `validSortColumns`. -/
inductive SortCol
  | price_delta_percent
  | price_delta
  | listing_price
  | original_price
  | listing_year
  | mileage_km
  | title
deriving DecidableEq, Repr

/-- Sort direction: `ASC` or `DESC`. -/
inductive SortDir
  | asc
  | desc
deriving DecidableEq, Repr

/-- Result of the JavaScript property lookup `validSortColumns[sortColumn]`
on the route's object literal: an own property maps to an `ORDER BY` column
string (`col`); a key naming an `Object.prototype` member is found on the
prototype chain and yields a truthy non-column value (`inherited`); any other
key yields the falsy `undefined` (the constructor of the same name). -/
inductive JsLookup where
  | col : SortCol → JsLookup
  | inherited : JsLookup
  | undefined : JsLookup
deriving DecidableEq, Repr

/-- The `Object.prototype` member names reachable through a bracket lookup on
a plain object literal (all of them bound to truthy values: eleven functions
and the `__proto__` accessor's object result). -/
def protoKeys : List String :=
  ["constructor", "hasOwnProperty", "isPrototypeOf", "propertyIsEnumerable",
   "toLocaleString", "toString", "valueOf", "__defineGetter__",
   "__defineSetter__", "__lookupGetter__", "__lookupSetter__", "__proto__"]

/-- The own keys of the route's `validSortColumns` object literal. -/
def allowKeys : List String :=
  ["price_delta_percent", "price_delta", "price_eur", "entry_price_eur",
   "listing_price", "original_price", "listing_year", "mileage_km", "title"]

/-- The route's `validSortColumns[sortColumn]` lookup: the nine own properties
map to their `ORDER BY` columns; a non-own key falls through to the object's
prototype chain, where the `Object.prototype` member names are found (truthy),
and only the remaining keys give `undefined`. -/
def validSortColumns (s : String) : JsLookup :=
  if s = "price_delta_percent" then .col .price_delta_percent
  else if s = "price_delta" then .col .price_delta
  else if s = "price_eur" then .col .listing_price
  else if s = "entry_price_eur" then .col .original_price
  else if s = "listing_price" then .col .listing_price
  else if s = "original_price" then .col .original_price
  else if s = "listing_year" then .col .listing_year
  else if s = "mileage_km" then .col .mileage_km
  else if s = "title" then .col .title
  else if s ∈ protoKeys then .inherited
  else .undefined

/-- `sortBy.startsWith('-')`. -/
def startsDash (s : String) : Bool :=
  match s.data with
  | c :: _ => c = '-'
  | [] => false

/-- JavaScript `sortBy.replace` with an anchored dash regex: remove one
leading dash if present. -/
def stripDash (s : String) : String :=
  match s.data with
  | c :: rest => if c = '-' then String.mk rest else s
  | [] => s

/-- Sort resolution of `GET /api/insights/price-delta`:
`sortOrder = sortBy.startsWith('-') ? 'DESC' : 'ASC'` computed on the *raw*
key, and `orderBy = validSortColumns[stripped] || 'price_delta_percent'`.
The `||` default only replaces the falsy `undefined`; an `inherited` value is
truthy, so it is interpolated verbatim into `ORDER BY ${orderBy}`, the query
is invalid SQL, and the route's catch turns the thrown query error into a 500
response — modelled here as `.error ()`. -/
def resolveSort (sortBy : String) : Except Unit (SortCol × SortDir) :=
  match validSortColumns (stripDash sortBy) with
  | .col c => .ok (c, if startsDash sortBy then .desc else .asc)
  | .inherited => .error ()
  | .undefined => .ok (.price_delta_percent, if startsDash sortBy then .desc else .asc)

theorem validSortColumns_proto {k : String} (hp : k ∈ protoKeys) :
    validSortColumns k = .inherited := by
  have hne := (show ∀ x ∈ protoKeys, x ∉ allowKeys by decide) k hp
  simp only [allowKeys, List.mem_cons, List.not_mem_nil, or_false, not_or] at hne
  obtain ⟨h1, h2, h3, h4, h5, h6, h7, h8, h9⟩ := hne
  unfold validSortColumns
  simp [h1, h2, h3, h4, h5, h6, h7, h8, h9, hp]

theorem validSortColumns_undefined {k : String} (hp : k ∉ protoKeys)
    (ha : k ∉ allowKeys) : validSortColumns k = .undefined := by
  simp only [allowKeys, List.mem_cons, List.not_mem_nil, or_false, not_or] at ha
  obtain ⟨h1, h2, h3, h4, h5, h6, h7, h8, h9⟩ := ha
  unfold validSortColumns
  simp [h1, h2, h3, h4, h5, h6, h7, h8, h9, hp]

theorem validSortColumns_inherited_mem {k : String}
    (h : validSortColumns k = .inherited) : k ∈ protoKeys := by
  unfold validSortColumns at h
  split_ifs at h
  all_goals simp_all

/-- C7 (corrected), counterexample: the claim says an unrecognized sort key
falls back to delta percent *descending*, not an error.  The code keeps the
direction derived from the dash on the raw key, so the unrecognized key
"bogus" (and even the route's default key "price_delta_percent") sorts delta
percent *ascending*; and an unrecognized key naming an `Object.prototype`
member ("constructor", "-toString", ...) is found on the prototype chain,
interpolated into `ORDER BY`, and the request fails with a SQL error. -/
theorem c7_unrecognized_sort_counterexample :
    resolveSort "bogus" = .ok (SortCol.price_delta_percent, SortDir.asc) ∧
    resolveSort "bogus" ≠ .ok (SortCol.price_delta_percent, SortDir.desc) ∧
    resolveSort "price_delta_percent" = .ok (SortCol.price_delta_percent, SortDir.asc) ∧
    resolveSort "constructor" = .error () ∧
    resolveSort "-toString" = .error () := by
  refine ⟨by decide, by decide, by decide, by decide, by decide⟩

/-- C7 (amended): whenever a sort key resolves successfully, a leading "-"
selects descending order and its absence ascending; the resolution errors
exactly when the dash-stripped key names an `Object.prototype` member (the
inherited truthy value reaches `ORDER BY` and the query fails, a 500, not a
fallback); and a stripped key that is neither a prototype member nor in the
allow-list falls back to the delta-percent column with the direction still
taken from the dash on the raw key (ascending when absent). -/
theorem c7_sort_direction_and_fallback :
    (∀ (s : String) (c : SortCol) (d : SortDir), resolveSort s = .ok (c, d) →
      (d = SortDir.desc ↔ ∃ rest, s.data = '-' :: rest)) ∧
    (∀ s : String, resolveSort s = .error () ↔ stripDash s ∈ protoKeys) ∧
    (∀ s : String, stripDash s ∉ protoKeys → stripDash s ∉ allowKeys →
      resolveSort s = .ok (SortCol.price_delta_percent,
        if startsDash s then SortDir.desc else SortDir.asc)) := by
  refine ⟨?_, ?_, ?_⟩
  · intro s c d hres
    have hiff : startsDash s = true ↔ ∃ rest, s.data = '-' :: rest := by
      unfold startsDash
      cases hdata : s.data with
      | nil => simp
      | cons c2 cs =>
        simp only [decide_eq_true_eq]
        constructor
        · intro hc; exact ⟨cs, by rw [hc]⟩
        · rintro ⟨rest, heq⟩
          injection heq with h1 h2
    have hd : d = (if startsDash s then SortDir.desc else SortDir.asc) := by
      unfold resolveSort at hres
      cases hv : validSortColumns (stripDash s) with
      | col c2 =>
        simp only [hv, Except.ok.injEq, Prod.mk.injEq] at hres
        exact hres.2.symm
      | inherited => simp [hv] at hres
      | undefined =>
        simp only [hv, Except.ok.injEq, Prod.mk.injEq] at hres
        exact hres.2.symm
    rw [hd]
    by_cases hb : startsDash s = true
    · rw [if_pos hb]
      exact iff_of_true rfl (hiff.mp hb)
    · rw [if_neg hb]
      exact iff_of_false (by simp) (fun hex => hb (hiff.mpr hex))
  · intro s
    constructor
    · intro herr
      unfold resolveSort at herr
      cases hv : validSortColumns (stripDash s) with
      | col c2 => simp [hv] at herr
      | inherited => exact validSortColumns_inherited_mem hv
      | undefined => simp [hv] at herr
    · intro hp
      simp [resolveSort, validSortColumns_proto hp]
  · intro s hp ha
    simp [resolveSort, validSortColumns_undefined hp ha]

/-- Witness for C7's amended theorem: a dashed allow-listed key resolves
descending, a prototype-member key errors, and an ordinary unrecognized key
falls back to delta percent ascending. -/
theorem c7_sort_direction_and_fallback_witness :
    (SortDir.desc = SortDir.desc ↔ ∃ rest, ("-title").data = '-' :: rest) ∧
    resolveSort "-constructor" = .error () ∧
    resolveSort "bogus" = .ok (SortCol.price_delta_percent, SortDir.asc) :=
  ⟨c7_sort_direction_and_fallback.1 "-title" SortCol.title SortDir.desc (by decide),
   (c7_sort_direction_and_fallback.2.1 "-constructor").mpr (by decide),
   c7_sort_direction_and_fallback.2.2 "bogus" (by decide) (by decide)⟩

/-! ### Query/Filter layer (`GET /api/insights/price-delta`) -/

/-- A row of the `listings` table. -/
structure ListingRow where
  id : Nat
  url : Option String
  title : Option String
  price_eur : Option ℚ
  currency : Option String
  mileage_km : Option ℚ
  year : Option Int
  location : Option String
  description : Option String
  images : Option String
  specs : Option String
  model_id : Option Nat
  extracted_make : Option String
  extracted_model : Option String
deriving DecidableEq, Repr

/-- A row of the `prices` table. -/
structure PriceRow where
  model_id : Nat
  year : Int
  entry_price : Option ℚ
  entry_price_eur : Option ℚ
deriving DecidableEq, Repr

/-- The tables the price-delta query reads, in physical row order. -/
structure Catalog where
  makers : List MakerRow
  models : List ModelRow
  prices : List PriceRow
  listings : List ListingRow
deriving Repr

/-- The optional query filters of the route. -/
structure Filters where
  maker : Option String
  model : Option String
  minPrice : Option ℚ
  maxPrice : Option ℚ
  minDiscount : Option ℚ
  maxDiscount : Option ℚ
deriving Repr

/-- The joined context of one listing row: `LEFT JOIN models m ON m.id =
l.model_id`, `LEFT JOIN makers mk ON mk.id = m.maker_id`, and the
closest-year `LATERAL` price row for the model. -/
structure JoinCtx where
  m : Option ModelRow
  mkr : Option MakerRow
  p : Option PricePoint
deriving Repr

/-- Build the joined context for a listing. -/
def mkCtx (cat : Catalog) (l : ListingRow) : JoinCtx :=
  let m := l.model_id.bind (fun mid => cat.models.find? (fun r => r.id == mid))
  let mk := m.bind (fun mr => cat.makers.find? (fun r => r.id == mr.maker_id))
  let p := m.bind (fun mr =>
    closestPrice l.year
      ((cat.prices.filter (fun pr => pr.model_id == mr.id)).map
        (fun pr => ⟨pr.year, pr.entry_price_eur⟩)))
  ⟨m, mk, p⟩

/-- `field ILIKE '%'||v||'%'` with SQL null semantics: a NULL field never
satisfies the filter. -/
def optContains (field : Option String) (v : String) : Bool :=
  match field with
  | none => false
  | some s => likeMatch ("%" ++ v ++ "%") s

/-- A numeric comparison against a nullable column: NULL drops the row. -/
def optCmp (cmp : ℚ → Bool) (x : Option ℚ) : Bool :=
  match x with
  | none => false
  | some q => cmp q

/-- A discount-filter comparison
`((p.entry_price_eur - l.price_eur) / p.entry_price_eur * 100) ⊙ v`: SQL
arithmetic is strict, so a NULL operand gives NULL (row dropped, no error),
but a zero reference price with a non-null listing price raises
division-by-zero. -/
def discountCmp (cmp : ℚ → Bool) (entry lp : Option ℚ) : Except Unit Bool :=
  match entry, lp with
  | some e, some x => if e = 0 then .error () else .ok (cmp ((e - x) / e * 100))
  | _, _ => .ok false

/-- Short-circuiting AND on possibly-erroring SQL Booleans. -/
def andE : Except Unit Bool → Except Unit Bool → Except Unit Bool
  | .error _, _ => .error ()
  | .ok false, _ => .ok false
  | .ok true, e => e

/-- The `WHERE` clause of the `price_matches` CTE: the six optional user
filters in the order the route pushes them, then the two unconditional
`IS NOT NULL` filters on the reference and listing price.  Conjuncts are
evaluated left to right (a determinization of SQL's unspecified `AND`
evaluation order; which rows pass does not depend on it). -/
def wherePass (f : Filters) (l : ListingRow) (ctx : JoinCtx) : Except Unit Bool :=
  let entry := ctx.p.bind (fun pp => pp.entry)
  andE (.ok (match f.maker with
    | none => true
    | some v => optContains l.extracted_make v || optContains (ctx.mkr.map (fun r => r.name)) v))
  (andE (.ok (match f.model with
    | none => true
    | some v => optContains l.extracted_model v || optContains (ctx.m.map (fun r => r.name)) v))
  (andE (.ok (match f.minPrice with
    | none => true
    | some v => optCmp (fun q => decide (v ≤ q)) l.price_eur))
  (andE (.ok (match f.maxPrice with
    | none => true
    | some v => optCmp (fun q => decide (q ≤ v)) l.price_eur))
  (andE (match f.minDiscount with
    | none => .ok true
    | some v => discountCmp (fun q => decide (v ≤ q)) entry l.price_eur)
  (andE (match f.maxDiscount with
    | none => .ok true
    | some v => discountCmp (fun q => decide (q ≤ v)) entry l.price_eur)
  (.ok (!entry.isNone && !l.price_eur.isNone)))))))

/-- An output row of the query (rows surviving the outer
`WHERE price_delta_percent IS NOT NULL` filter, whose price fields are
therefore non-null). -/
structure QRow where
  id : Nat
  url : Option String
  title : Option String
  listing_price : ℚ
  listing_year : Option Int
  mileage_km : Option ℚ
  original_price : ℚ
  original_year : Int
  make : Option String
  model : Option String
  matched_maker : Option String
  matched_model : Option String
  price_delta : ℚ
  price_delta_percent : ℚ
deriving DecidableEq, Repr

/-- The `SELECT` list of the CTE for a row that passed the `WHERE` clause,
combined with the outer `WHERE price_delta_percent IS NOT NULL`: computes the
delta columns — raising division-by-zero on a zero reference price — or
yields `none` when a NULL operand makes `price_delta_percent` NULL. -/
def selectRow (l : ListingRow) (ctx : JoinCtx) : Except Unit (Option QRow) :=
  match ctx.p with
  | none => .ok none
  | some pp =>
    match pp.entry, l.price_eur with
    | some e, some lp =>
      if e = 0 then .error ()
      else .ok (some ⟨l.id, l.url, l.title, lp, l.year, l.mileage_km, e, pp.year,
        l.extracted_make, l.extracted_model, ctx.mkr.map (fun r => r.name),
        ctx.m.map (fun r => r.name), e - lp, round2 ((e - lp) / e * 100)⟩)
    | _, _ => .ok none

/-- One listing's contribution to the main query's output. -/
def evalListing (cat : Catalog) (f : Filters) (l : ListingRow) : Except Unit (Option QRow) :=
  match wherePass f l (mkCtx cat l) with
  | .error e => .error e
  | .ok false => .ok none
  | .ok true => selectRow l (mkCtx cat l)

/-- The full filtered row set of the main query (before `ORDER BY` / `LIMIT`
/ `OFFSET`), in listing order. -/
def collectRows (cat : Catalog) (f : Filters) : List ListingRow → Except Unit (List QRow)
  | [] => .ok []
  | l :: ls =>
    match evalListing cat f l, collectRows cat f ls with
    | .error e, _ => .error e
    | .ok _, .error e => .error e
    | .ok none, .ok rest => .ok rest
    | .ok (some q), .ok rest => .ok (q :: rest)

/-- One listing's contribution to the `countQuery`: the same joins and
`WHERE` clause, then the count CTE's outer filter — reference and listing
price non-null. -/
def countHit (cat : Catalog) (f : Filters) (l : ListingRow) : Except Unit Bool :=
  match wherePass f l (mkCtx cat l) with
  | .error e => .error e
  | .ok b =>
    .ok (b && !((mkCtx cat l).p.bind (fun pp => pp.entry)).isNone && !l.price_eur.isNone)

/-- The `countQuery` total.  It receives no limit/offset — the route strips
them from the parameter list. -/
def countTotal (cat : Catalog) (f : Filters) : List ListingRow → Except Unit Nat
  | [] => .ok 0
  | l :: ls =>
    match countHit cat f l, countTotal cat f ls with
    | .error e, _ => .error e
    | .ok _, .error e => .error e
    | .ok true, .ok n => .ok (n + 1)
    | .ok false, .ok n => .ok n

/-- Direction-aware comparison on a non-null numeric column. -/
def dirLe (d : SortDir) (x y : ℚ) : Bool :=
  match d with
  | .asc => decide (x ≤ y)
  | .desc => decide (y ≤ x)

/-- Direction-aware comparison on an integer column. -/
def intDirLe (d : SortDir) (x y : Int) : Bool :=
  match d with
  | .asc => decide (x ≤ y)
  | .desc => decide (y ≤ x)

/-- Direction-aware comparison on a text column. -/
def strLe (d : SortDir) (x y : String) : Bool :=
  match d with
  | .asc => decide (x ≤ y)
  | .desc => decide (y ≤ x)

/-- `NULLS LAST`, as the query specifies for either direction. -/
def optDirLe {α : Type} (le : α → α → Bool) : Option α → Option α → Bool
  | none, none => true
  | none, some _ => false
  | some _, none => true
  | some a, some b => le a b

/-- The `ORDER BY <column> <direction> NULLS LAST` comparator. -/
def rowLe (c : SortCol) (d : SortDir) (a b : QRow) : Bool :=
  match c with
  | .price_delta_percent => dirLe d a.price_delta_percent b.price_delta_percent
  | .price_delta => dirLe d a.price_delta b.price_delta
  | .listing_price => dirLe d a.listing_price b.listing_price
  | .original_price => dirLe d a.original_price b.original_price
  | .listing_year => optDirLe (intDirLe d) a.listing_year b.listing_year
  | .mileage_km => optDirLe (dirLe d) a.mileage_km b.mileage_km
  | .title => optDirLe (strLe d) a.title b.title

/-- `ORDER BY` as a sort of the filtered rows.  PostgreSQL's sort is not
stable, so any permutation consistent with the comparator is a faithful
determinization; the pagination properties do not depend on which. -/
def sortRows (s : SortCol × SortDir) (rows : List QRow) : List QRow :=
  List.insertionSort (fun a b => rowLe s.1 s.2 a b = true) rows

/-- `LIMIT limit OFFSET offset`. -/
def pageRows (rows : List QRow) (limit offset : Nat) : List QRow :=
  (rows.drop offset).take limit

/-- The route's page computation: filter, sort, paginate. -/
def runPage (cat : Catalog) (f : Filters) (s : SortCol × SortDir)
    (limit offset : Nat) : Except Unit (List QRow) :=
  match collectRows cat f cat.listings with
  | .error e => .error e
  | .ok rows => .ok (pageRows (sortRows s rows) limit offset)

/-! ### Error-freedom and count/page agreement for the query layer -/

theorem ctx_p_entry {cat : Catalog} {l : ListingRow} {pp : PricePoint}
    (hz : ∀ pr ∈ cat.prices, pr.entry_price_eur ≠ some 0)
    (hp : (mkCtx cat l).p = some pp) : pp.entry ≠ some 0 := by
  simp only [mkCtx, Option.bind_eq_some] at hp
  obtain ⟨mr, -, hc⟩ := hp
  have hm := closestPrice_mem hc
  rw [List.mem_map] at hm
  obtain ⟨pr, hpr, hpp⟩ := hm
  rw [List.mem_filter] at hpr
  rw [← hpp]
  exact hz pr hpr.1

theorem discountCmp_ok {cmp : ℚ → Bool} {entry lp : Option ℚ}
    (he : entry ≠ some 0) : ∃ b, discountCmp cmp entry lp = .ok b := by
  cases entry with
  | none => exact ⟨false, rfl⟩
  | some e =>
    cases lp with
    | none => exact ⟨false, rfl⟩
    | some x =>
      have hne : e ≠ 0 := fun h0 => he (by rw [h0])
      exact ⟨cmp ((e - x) / e * 100), by simp [discountCmp, hne]⟩

theorem andE_ok {x y : Except Unit Bool} (hx : ∃ b, x = .ok b) (hy : ∃ b, y = .ok b) :
    ∃ b, andE x y = .ok b := by
  obtain ⟨b1, rfl⟩ := hx
  obtain ⟨b2, rfl⟩ := hy
  cases b1 with
  | false => exact ⟨false, rfl⟩
  | true => exact ⟨b2, rfl⟩

theorem wherePass_ok {cat : Catalog} {f : Filters} {l : ListingRow}
    (hz : ∀ pr ∈ cat.prices, pr.entry_price_eur ≠ some 0) :
    ∃ b, wherePass f l (mkCtx cat l) = .ok b := by
  have hentry : (mkCtx cat l).p.bind (fun pp => pp.entry) ≠ some 0 := by
    intro hcon
    rw [Option.bind_eq_some] at hcon
    obtain ⟨pp, hpp, hent⟩ := hcon
    exact ctx_p_entry hz hpp hent
  unfold wherePass
  refine andE_ok ⟨_, rfl⟩ (andE_ok ⟨_, rfl⟩ (andE_ok ⟨_, rfl⟩ (andE_ok ⟨_, rfl⟩
    (andE_ok ?_ (andE_ok ?_ ⟨_, rfl⟩)))))
  · cases f.minDiscount with
    | none => exact ⟨true, rfl⟩
    | some v => exact discountCmp_ok hentry
  · cases f.maxDiscount with
    | none => exact ⟨true, rfl⟩
    | some v => exact discountCmp_ok hentry

theorem eval_count_step {cat : Catalog} {f : Filters} {l : ListingRow}
    (hz : ∀ pr ∈ cat.prices, pr.entry_price_eur ≠ some 0) :
    (∃ q : QRow, evalListing cat f l = .ok (some q) ∧ q.id = l.id ∧
        countHit cat f l = .ok true) ∨
      (evalListing cat f l = .ok none ∧ countHit cat f l = .ok false) := by
  obtain ⟨b, hb⟩ := @wherePass_ok cat f l hz
  cases b with
  | false =>
    right
    constructor
    · unfold evalListing
      rw [hb]
    · unfold countHit
      rw [hb]
      simp
  | true =>
    unfold evalListing countHit
    rw [hb]
    cases hp : (mkCtx cat l).p with
    | none =>
      right
      constructor
      · unfold selectRow
        rw [hp]
      · simp
    | some pp =>
      cases hent : pp.entry with
      | none =>
        right
        constructor
        · unfold selectRow
          rw [hp]
          simp only [hent]
        · simp [hent]
      | some e =>
        cases hpe : l.price_eur with
        | none =>
          right
          constructor
          · unfold selectRow
            rw [hp]
            simp only [hent, hpe]
          · simp [hent]
        | some lp =>
          left
          have hne : e ≠ 0 := by
            intro h0
            exact ctx_p_entry hz hp (by rw [hent, h0])
          have hsel : selectRow l (mkCtx cat l) = .ok (some ⟨l.id, l.url, l.title, lp,
              l.year, l.mileage_km, e, pp.year, l.extracted_make, l.extracted_model,
              (mkCtx cat l).mkr.map (fun r => r.name), (mkCtx cat l).m.map (fun r => r.name),
              e - lp, round2 ((e - lp) / e * 100)⟩) := by
            unfold selectRow
            rw [hp]
            simp only [hent, hpe]
            rw [if_neg hne]
          exact ⟨_, hsel, rfl, by simp [hent]⟩

theorem collect_count {cat : Catalog} {f : Filters}
    (hz : ∀ pr ∈ cat.prices, pr.entry_price_eur ≠ some 0) :
    ∀ ls : List ListingRow, ∃ rows : List QRow,
      collectRows cat f ls = .ok rows ∧ countTotal cat f ls = .ok rows.length ∧
      (rows.map (fun r => r.id)).Sublist (ls.map (fun l => l.id)) := by
  intro ls
  induction ls with
  | nil => exact ⟨[], rfl, rfl, List.Sublist.refl _⟩
  | cons l ls ih =>
    obtain ⟨rows, h1, h2, h3⟩ := ih
    rcases @eval_count_step cat f l hz with ⟨q, he, hid, hc⟩ | ⟨he, hc⟩
    · refine ⟨q :: rows, ?_, ?_, ?_⟩
      · unfold collectRows
        rw [he, h1]
      · unfold countTotal
        rw [hc, h2]
        rfl
      · simp only [List.map_cons, hid]
        exact h3.cons₂ l.id
    · refine ⟨rows, ?_, ?_, ?_⟩
      · unfold collectRows
        rw [he, h1]
      · unfold countTotal
        rw [hc, h2]
      · simp only [List.map_cons]
        exact h3.cons l.id

/-- Pages at offsets `0, L, 2L, …` flatten back to a `take` of the row
list. -/
theorem paginate_flatten {α : Type} (rows : List α) (L N : Nat) :
    ((List.range N).map (fun k => ((rows.drop (k * L)).take L))).flatten =
      rows.take (N * L) := by
  induction N with
  | zero => simp
  | succ n ih =>
    rw [List.range_succ, List.map_append, List.flatten_append]
    simp only [List.map_cons, List.map_nil, List.flatten_cons, List.flatten_nil,
      List.append_nil]
    rw [ih, Nat.succ_mul, List.take_add]

/-- C4 (confirmed): under the database invariant that no stored reference
price is exactly zero (without it the route 500s, returning neither page nor
total) and primary-key uniqueness of listing ids, the `countQuery` total
equals the size of the full filtered row set — only listings with a non-null
reconciled reference price and a non-null listing price participate in either
— independent of limit and offset (the count takes none); page sizes at
offsets `0, L, 2L, …` sum to the total, and no listing id appears on two
different pages. -/
theorem c4_total_and_pagination (cat : Catalog) (f : Filters) (s : SortCol × SortDir)
    (hz : ∀ pr ∈ cat.prices, pr.entry_price_eur ≠ some 0)
    (hnd : (cat.listings.map (fun l => l.id)).Nodup) :
    ∃ rows : List QRow,
      collectRows cat f cat.listings = .ok rows ∧
      countTotal cat f cat.listings = .ok rows.length ∧
      (∀ limit offset : Nat,
        runPage cat f s limit offset = .ok (pageRows (sortRows s rows) limit offset)) ∧
      ∀ N L : Nat, rows.length ≤ N * L →
        (((List.range N).map (fun k => pageRows (sortRows s rows) L (k * L))).map
            List.length).sum = rows.length ∧
        List.Pairwise (fun pg1 pg2 => ∀ x ∈ pg1, ∀ y ∈ pg2, x.id ≠ y.id)
          ((List.range N).map (fun k => pageRows (sortRows s rows) L (k * L))) := by
  obtain ⟨rows, h1, h2, h3⟩ := collect_count hz cat.listings
  have hperm : (sortRows s rows).Perm rows := List.perm_insertionSort _ rows
  have hlen : (sortRows s rows).length = rows.length := hperm.length_eq
  refine ⟨rows, h1, h2, ?_, ?_⟩
  · intro limit offset
    unfold runPage
    rw [h1]
  · intro N L hNL
    have hflat : ((List.range N).map (fun k => pageRows (sortRows s rows) L (k * L))).flatten
        = sortRows s rows := by
      simp only [pageRows]
      rw [paginate_flatten]
      apply List.take_of_length_le
      rw [hlen]
      exact hNL
    constructor
    · calc (((List.range N).map (fun k => pageRows (sortRows s rows) L (k * L))).map
            List.length).sum
          = ((List.range N).map
              (fun k => pageRows (sortRows s rows) L (k * L))).flatten.length :=
            (List.length_flatten _).symm
        _ = (sortRows s rows).length := by rw [hflat]
        _ = rows.length := hlen
    · have hnodup : ((sortRows s rows).map (fun r => r.id)).Nodup :=
        ((hperm.map (fun r => r.id)).nodup_iff).mpr (hnd.sublist h3)
      have hfm : (((List.range N).map (fun k => pageRows (sortRows s rows) L (k * L))).map
          (List.map (fun r => r.id))).flatten.Nodup := by
        rw [← List.map_flatten, hflat]
        exact hnodup
      have hpd := (List.nodup_flatten.mp hfm).2
      rw [List.pairwise_map] at hpd
      refine hpd.imp ?_
      intro a b hdisj x hx y hy hxy
      exact hdisj (List.mem_map_of_mem _ hx) (hxy ▸ List.mem_map_of_mem _ hy)

/-- A small concrete catalog used to instantiate the pagination theorem. -/
def sampleCatalog : Catalog :=
  ⟨[⟨1, "BMW"⟩],
   [⟨1, 1, "3 Series", "g3"⟩],
   [⟨1, 2015, none, some 20000⟩],
   [⟨1, some "u1", some "BMW 3 Series", some 18000, none, none, some 2014, none, none,
     none, none, some 1, some "BMW", some "3 Series"⟩,
    ⟨2, some "u2", some "Audi A4", some 9000, none, none, none, none, none,
     none, none, none, some "Audi", some "A4"⟩]⟩

/-- The route's filters when none are supplied. -/
def noFilters : Filters := ⟨none, none, none, none, none, none⟩

/-- Witness for C4 at a concrete two-listing catalog with no filters. -/
theorem c4_total_and_pagination_witness :
    ∃ rows : List QRow,
      collectRows sampleCatalog noFilters sampleCatalog.listings = .ok rows ∧
      countTotal sampleCatalog noFilters sampleCatalog.listings = .ok rows.length ∧
      (∀ limit offset : Nat,
        runPage sampleCatalog noFilters (SortCol.price_delta_percent, SortDir.asc)
            limit offset =
          .ok (pageRows (sortRows (SortCol.price_delta_percent, SortDir.asc) rows)
            limit offset)) ∧
      ∀ N L : Nat, rows.length ≤ N * L →
        (((List.range N).map (fun k =>
            pageRows (sortRows (SortCol.price_delta_percent, SortDir.asc) rows) L
              (k * L))).map List.length).sum = rows.length ∧
        List.Pairwise (fun pg1 pg2 => ∀ x ∈ pg1, ∀ y ∈ pg2, x.id ≠ y.id)
          ((List.range N).map (fun k =>
            pageRows (sortRows (SortCol.price_delta_percent, SortDir.asc) rows) L
              (k * L))) :=
  c4_total_and_pagination sampleCatalog noFilters (SortCol.price_delta_percent, SortDir.asc)
    (by
      intro pr hpr
      rw [show sampleCatalog.prices = [⟨1, 2015, none, some 20000⟩] from rfl,
        List.mem_singleton] at hpr
      subst hpr
      simp)
    (by decide)

/-! ### Catalog ingestion
(`getMakerId` / `getModelId` in `src/unnamed/part_005`) -/

/-- JavaScript `String.prototype.toUpperCase` (ASCII names). -/
def jsUpper (s : String) : String :=
  String.mk (s.data.map Char.toUpper)

/-- The seeding module's state: the two process-wide caches (`makerCache`,
`modelCache`) and the `makers` / `models` tables with their `SERIAL`
counters.  Caches are association lists in insertion order with JavaScript
`Map` semantics; a key is never overwritten by this module. -/
structure SeedState where
  makerCache : List (String × Nat)
  modelCache : List (String × Nat)
  makers : List MakerRow
  models : List ModelRow
  nextMakerId : Nat
  nextModelId : Nat
deriving Repr

/-- Association-list lookup (`Map.get`). -/
def alookup (m : List (String × Nat)) (k : String) : Option Nat :=
  (m.find? (fun e => e.1 == k)).map (fun e => e.2)

/-- `getMakerId`: cache keyed by `makerName.trim().toUpperCase()`; on a miss,
`INSERT INTO makers (name) VALUES ($trimmed) ON CONFLICT (name) DO UPDATE SET
name = EXCLUDED.name RETURNING id`.  The conflict target is the
*case-sensitive* UNIQUE constraint on `name`; the conflict update writes back
the identical name.  The `SERIAL` counter advances on every executed insert
statement, conflict or not. -/
def getMakerId (st : SeedState) (makerName : String) : Nat × SeedState :=
  let key := jsUpper (jsTrim makerName)
  match alookup st.makerCache key with
  | some id => (id, st)
  | none =>
    match st.makers.find? (fun r => r.name == jsTrim makerName) with
    | some r =>
      (r.id, { st with
        makers := st.makers.map (fun q =>
          if q.name == jsTrim makerName then { q with name := jsTrim makerName } else q),
        makerCache := st.makerCache ++ [(key, r.id)],
        nextMakerId := st.nextMakerId + 1 })
    | none =>
      (st.nextMakerId, { st with
        makers := st.makers ++ [⟨st.nextMakerId, jsTrim makerName⟩],
        makerCache := st.makerCache ++ [(key, st.nextMakerId)],
        nextMakerId := st.nextMakerId + 1 })

/-- The `modelCache` key `` `${makerId}::${genmodelId}` `` (raw, untrimmed
genmodel id, as the source interpolates it). -/
def modelKey (makerId : Nat) (genmodelId : String) : String :=
  toString makerId ++ "::" ++ genmodelId

/-- `getModelId`: cache keyed by `modelKey`; on a miss,
`INSERT INTO models (maker_id, name, genmodel_id) VALUES ($1, $trim, $trim)
ON CONFLICT (maker_id, genmodel_id) DO UPDATE SET name = EXCLUDED.name
RETURNING id`. -/
def getModelId (st : SeedState) (makerId : Nat) (modelName genmodelId : String) :
    Nat × SeedState :=
  let key := modelKey makerId genmodelId
  match alookup st.modelCache key with
  | some id => (id, st)
  | none =>
    match st.models.find? (fun r =>
        r.maker_id == makerId && r.genmodel_id == jsTrim genmodelId) with
    | some r =>
      (r.id, { st with
        models := st.models.map (fun q =>
          if q.maker_id == makerId && q.genmodel_id == jsTrim genmodelId then
            { q with name := jsTrim modelName } else q),
        modelCache := st.modelCache ++ [(key, r.id)],
        nextModelId := st.nextModelId + 1 })
    | none =>
      (st.nextModelId, { st with
        models := st.models ++
          [⟨st.nextModelId, makerId, jsTrim modelName, jsTrim genmodelId⟩],
        modelCache := st.modelCache ++ [(key, st.nextModelId)],
        nextModelId := st.nextModelId + 1 })

/-- One catalog source row, as `seedSales` / `seedPrices` feed it to
`getMakerId` / `getModelId`. -/
structure CatalogRow where
  maker : String
  genmodel : String
  genmodelId : String
deriving Repr

/-- Ingest one catalog row: resolve the maker id, then upsert the model. -/
def ingestRow (st : SeedState) (row : CatalogRow) : SeedState :=
  let m := getMakerId st row.maker
  (getModelId m.2 m.1 row.genmodel row.genmodelId).2

/-- A catalog ingestion run over source rows in order. -/
def ingestCatalog (st : SeedState) (rows : List CatalogRow) : SeedState :=
  rows.foldl ingestRow st

/-- The state at process start: empty caches and empty tables (`SERIAL` ids
from 1). -/
def initialSeedState : SeedState := ⟨[], [], [], [], 1, 1⟩

/-- A new process re-running ingestion: the database tables and sequences
persist, the in-memory caches do not. -/
def resetCaches (st : SeedState) : SeedState :=
  { st with makerCache := [], modelCache := [] }

/-- A model row without its (mutable) display name: id and natural key. -/
def stripN (l : List ModelRow) : List (Nat × Nat × String) :=
  l.map (fun r => (r.id, r.maker_id, r.genmodel_id))

/-! ### Supporting lemmas for the ingestion proofs -/

theorem find?_append_some {α : Type} {p : α → Bool} {l1 : List α} {x : α}
    (h : l1.find? p = some x) (l2 : List α) : (l1 ++ l2).find? p = some x := by
  induction l1 with
  | nil => simp [List.find?] at h
  | cons a as ih =>
    rw [List.cons_append]
    cases hp : p a with
    | true => rw [List.find?_cons_of_pos _ hp] at h ⊢; exact h
    | false =>
      rw [List.find?_cons_of_neg _ (by simp [hp])] at h ⊢
      exact ih h

theorem find?_append_none {α : Type} {p : α → Bool} {l1 : List α}
    (h : l1.find? p = none) (l2 : List α) : (l1 ++ l2).find? p = l2.find? p := by
  induction l1 with
  | nil => rfl
  | cons a as ih =>
    rw [List.cons_append]
    cases hp : p a with
    | true => rw [List.find?_cons_of_pos _ hp] at h; exact absurd h (by simp)
    | false =>
      rw [List.find?_cons_of_neg _ (by simp [hp])] at h ⊢
      exact ih h

theorem alookup_append_some {m : List (String × Nat)} {k : String} {v : Nat}
    (h : alookup m k = some v) (d : List (String × Nat)) : alookup (m ++ d) k = some v := by
  unfold alookup at h ⊢
  cases hf : m.find? (fun e => e.1 == k) with
  | none => rw [hf] at h; simp at h
  | some e =>
    rw [hf] at h
    rw [find?_append_some hf]
    exact h

theorem alookup_append_self {m : List (String × Nat)} {k : String} (v : Nat)
    (h : alookup m k = none) : alookup (m ++ [(k, v)]) k = some v := by
  unfold alookup at h ⊢
  cases hf : m.find? (fun e => e.1 == k) with
  | some e => rw [hf] at h; simp at h
  | none =>
    rw [find?_append_none hf]
    simp [List.find?]

theorem makers_update_identity (l : List MakerRow) (nm : String) :
    (l.map (fun q => if q.name == nm then { q with name := nm } else q)) = l := by
  induction l with
  | nil => rfl
  | cons a as ih =>
    simp only [List.map_cons, ih]
    by_cases h : a.name = nm
    · have hrow : ({ a with name := nm } : MakerRow) = a := by
        cases a
        simp_all
      simp [beq_iff_eq, h, hrow]
    · simp [beq_iff_eq, h]

theorem models_update_stripN (l : List ModelRow) (mid : Nat) (tg nm : String) :
    stripN (l.map (fun q =>
      if q.maker_id == mid && q.genmodel_id == tg then { q with name := nm } else q)) =
      stripN l := by
  unfold stripN
  rw [List.map_map]
  refine List.map_congr_left ?_
  intro q hq
  by_cases h : (q.maker_id == mid && q.genmodel_id == tg) = true
  · simp only [Function.comp_apply, if_pos h]
  · simp only [Function.comp_apply, if_neg h]

theorem getMakerId_frame (st : SeedState) (name : String) :
    ((getMakerId st name).2).models = st.models ∧
    ((getMakerId st name).2).modelCache = st.modelCache ∧
    ((getMakerId st name).2).nextModelId = st.nextModelId := by
  simp only [getMakerId]
  cases h1 : alookup st.makerCache (jsUpper (jsTrim name)) with
  | some id => exact ⟨rfl, rfl, rfl⟩
  | none =>
    cases h2 : st.makers.find? (fun r => r.name == jsTrim name) with
    | some r => exact ⟨rfl, rfl, rfl⟩
    | none => exact ⟨rfl, rfl, rfl⟩

theorem getModelId_frame (st : SeedState) (mid : Nat) (gm gid : String) :
    ((getModelId st mid gm gid).2).makers = st.makers ∧
    ((getModelId st mid gm gid).2).makerCache = st.makerCache ∧
    ((getModelId st mid gm gid).2).nextMakerId = st.nextMakerId := by
  simp only [getModelId]
  cases h1 : alookup st.modelCache (modelKey mid gid) with
  | some id => exact ⟨rfl, rfl, rfl⟩
  | none =>
    cases h2 : st.models.find? (fun r => r.maker_id == mid && r.genmodel_id == jsTrim gid) with
    | some r => exact ⟨rfl, rfl, rfl⟩
    | none => exact ⟨rfl, rfl, rfl⟩

/-- Full case analysis of `getModelId`. -/
theorem getModelId_cases (st : SeedState) (mid : Nat) (gm gid : String) :
    (∃ id, alookup st.modelCache (modelKey mid gid) = some id ∧
      getModelId st mid gm gid = (id, st)) ∨
    (alookup st.modelCache (modelKey mid gid) = none ∧
      ∃ r, st.models.find?
          (fun q => q.maker_id == mid && q.genmodel_id == jsTrim gid) = some r ∧
        getModelId st mid gm gid = (r.id, { st with
          models := st.models.map (fun q =>
            if q.maker_id == mid && q.genmodel_id == jsTrim gid then
              { q with name := jsTrim gm } else q),
          modelCache := st.modelCache ++ [(modelKey mid gid, r.id)],
          nextModelId := st.nextModelId + 1 })) ∨
    (alookup st.modelCache (modelKey mid gid) = none ∧
      st.models.find? (fun q => q.maker_id == mid && q.genmodel_id == jsTrim gid) = none ∧
      getModelId st mid gm gid = (st.nextModelId, { st with
        models := st.models ++ [⟨st.nextModelId, mid, jsTrim gm, jsTrim gid⟩],
        modelCache := st.modelCache ++ [(modelKey mid gid, st.nextModelId)],
        nextModelId := st.nextModelId + 1 })) := by
  simp only [getModelId]
  cases h1 : alookup st.modelCache (modelKey mid gid) with
  | some id => exact .inl ⟨id, rfl, rfl⟩
  | none =>
    cases h2 : st.models.find? (fun r => r.maker_id == mid && r.genmodel_id == jsTrim gid) with
    | some r => exact .inr (.inl ⟨rfl, r, rfl, rfl⟩)
    | none => exact .inr (.inr ⟨rfl, rfl, rfl⟩)

/-- Full case analysis of `getMakerId`. -/
theorem getMakerId_cases (st : SeedState) (name : String) :
    (∃ id, alookup st.makerCache (jsUpper (jsTrim name)) = some id ∧
      getMakerId st name = (id, st)) ∨
    (alookup st.makerCache (jsUpper (jsTrim name)) = none ∧
      ∃ r, st.makers.find? (fun q => q.name == jsTrim name) = some r ∧
        getMakerId st name = (r.id, { st with
          makers := st.makers.map (fun q =>
            if q.name == jsTrim name then { q with name := jsTrim name } else q),
          makerCache := st.makerCache ++ [(jsUpper (jsTrim name), r.id)],
          nextMakerId := st.nextMakerId + 1 })) ∨
    (alookup st.makerCache (jsUpper (jsTrim name)) = none ∧
      st.makers.find? (fun q => q.name == jsTrim name) = none ∧
      getMakerId st name = (st.nextMakerId, { st with
        makers := st.makers ++ [⟨st.nextMakerId, jsTrim name⟩],
        makerCache := st.makerCache ++ [(jsUpper (jsTrim name), st.nextMakerId)],
        nextMakerId := st.nextMakerId + 1 })) := by
  simp only [getMakerId]
  cases h1 : alookup st.makerCache (jsUpper (jsTrim name)) with
  | some id => exact .inl ⟨id, rfl, rfl⟩
  | none =>
    cases h2 : st.makers.find? (fun r => r.name == jsTrim name) with
    | some r => exact .inr (.inl ⟨rfl, r, rfl, rfl⟩)
    | none => exact .inr (.inr ⟨rfl, rfl, rfl⟩)

/-- Invariants of a single-process ingestion run from the initial state:
every maker row's case-normalized name is cached with its id, maker
case-normalized names are unique, and model natural keys are unique. -/
def Inv1 (s : SeedState) : Prop :=
  (∀ r ∈ s.makers, alookup s.makerCache (jsUpper r.name) = some r.id) ∧
  ((s.makers.map (fun r => jsUpper r.name)).Nodup) ∧
  ((s.models.map (fun r => (r.maker_id, r.genmodel_id))).Nodup)

/-- Under the cache-completeness invariant the maker conflict path is
unreachable: a cache miss implies the trimmed name is not in the table. -/
theorem getMakerId_cases_inv {s : SeedState} (name : String)
    (hA1 : ∀ r ∈ s.makers, alookup s.makerCache (jsUpper r.name) = some r.id) :
    (∃ id, alookup s.makerCache (jsUpper (jsTrim name)) = some id ∧
      getMakerId s name = (id, s)) ∨
    (alookup s.makerCache (jsUpper (jsTrim name)) = none ∧
      s.makers.find? (fun q => q.name == jsTrim name) = none ∧
      getMakerId s name = (s.nextMakerId, { s with
        makers := s.makers ++ [⟨s.nextMakerId, jsTrim name⟩],
        makerCache := s.makerCache ++ [(jsUpper (jsTrim name), s.nextMakerId)],
        nextMakerId := s.nextMakerId + 1 })) := by
  rcases getMakerId_cases s name with ⟨id, h1, h2⟩ | ⟨h1, r, h2, h3⟩ | ⟨h1, h2, h3⟩
  · exact .inl ⟨id, h1, h2⟩
  · exfalso
    have hr := List.mem_of_find?_eq_some h2
    have hname : r.name = jsTrim name := by
      simpa [beq_iff_eq] using List.find?_some h2
    have hcontra := hA1 r hr
    rw [hname, h1] at hcontra
    exact Option.noConfusion hcontra
  · exact .inr ⟨h1, h2, h3⟩

theorem Inv1_getMakerId {s : SeedState} (name : String) (h : Inv1 s) :
    Inv1 ((getMakerId s name).2) := by
  obtain ⟨hA1, hA2, hB2⟩ := h
  rcases getMakerId_cases_inv name hA1 with ⟨id, h1, h2⟩ | ⟨h1, h2, h3⟩
  · rw [h2]; exact ⟨hA1, hA2, hB2⟩
  · rw [h3]
    refine ⟨?_, ?_, hB2⟩
    · intro r hr
      simp only [List.mem_append, List.mem_singleton] at hr
      rcases hr with hr | rfl
      · exact alookup_append_some (hA1 r hr) _
      · exact alookup_append_self _ h1
    · simp only [List.map_append, List.map_cons, List.map_nil]
      refine List.Nodup.append hA2 (by simp) ?_
      intro a ha hb
      rw [List.mem_singleton] at hb
      subst hb
      rw [List.mem_map] at ha
      obtain ⟨r, hr, hkey⟩ := ha
      have hcontra := hA1 r hr
      rw [hkey, h1] at hcontra
      exact Option.noConfusion hcontra

theorem Inv1_getModelId {s : SeedState} (mid : Nat) (gm gid : String) (h : Inv1 s) :
    Inv1 ((getModelId s mid gm gid).2) := by
  obtain ⟨hA1, hA2, hB2⟩ := h
  rcases getModelId_cases s mid gm gid with ⟨id, h1, h2⟩ | ⟨h1, r, h2, h3⟩ | ⟨h1, h2, h3⟩
  · rw [h2]; exact ⟨hA1, hA2, hB2⟩
  · rw [h3]
    refine ⟨hA1, hA2, ?_⟩
    have hkeys : ((s.models.map (fun q =>
        if q.maker_id == mid && q.genmodel_id == jsTrim gid then
          { q with name := jsTrim gm } else q)).map
        (fun r => (r.maker_id, r.genmodel_id))) =
        s.models.map (fun r => (r.maker_id, r.genmodel_id)) := by
      rw [List.map_map]
      refine List.map_congr_left ?_
      intro q hq
      by_cases hc : (q.maker_id == mid && q.genmodel_id == jsTrim gid) = true
      · simp only [Function.comp_apply, if_pos hc]
      · simp only [Function.comp_apply, if_neg hc]
    have hgoal : ((s.models.map (fun q =>
        if q.maker_id == mid && q.genmodel_id == jsTrim gid then
          { q with name := jsTrim gm } else q)).map
        (fun r => (r.maker_id, r.genmodel_id))).Nodup := by
      rw [hkeys]; exact hB2
    exact hgoal
  · rw [h3]
    refine ⟨hA1, hA2, ?_⟩
    simp only [List.map_append, List.map_cons, List.map_nil]
    refine List.Nodup.append hB2 (by simp) ?_
    intro a ha hb
    rw [List.mem_singleton] at hb
    subst hb
    rw [List.mem_map] at ha
    obtain ⟨q, hq, hkey⟩ := ha
    have hpred := List.find?_eq_none.mp h2 q hq
    simp only [Bool.and_eq_true, beq_iff_eq] at hpred
    apply hpred
    have h1k : q.maker_id = mid := by
      have := congrArg Prod.fst hkey
      simpa using this
    have h2k : q.genmodel_id = jsTrim gid := by
      have := congrArg Prod.snd hkey
      simpa using this
    exact ⟨h1k, h2k⟩

theorem Inv1_ingestRow {s : SeedState} (row : CatalogRow) (h : Inv1 s) :
    Inv1 (ingestRow s row) :=
  Inv1_getModelId ((getMakerId s row.maker).1) row.genmodel row.genmodelId
    (Inv1_getMakerId row.maker h)

theorem Inv1_ingest (rows : List CatalogRow) :
    ∀ s : SeedState, Inv1 s → Inv1 (ingestCatalog s rows) := by
  induction rows with
  | nil => intro s h; exact h
  | cons row rows ih => intro s h; exact ih _ (Inv1_ingestRow row h)

theorem Inv1_initial : Inv1 initialSeedState := by
  refine ⟨?_, ?_, ?_⟩ <;> simp [initialSeedState]

theorem ingestRow_makers_mono {s : SeedState} (row : CatalogRow) :
    ∀ r ∈ s.makers, r ∈ (ingestRow s row).makers := by
  intro r hr
  have hframe := (getModelId_frame ((getMakerId s row.maker).2)
    ((getMakerId s row.maker).1) row.genmodel row.genmodelId).1
  show r ∈ (getModelId ((getMakerId s row.maker).2) ((getMakerId s row.maker).1)
    row.genmodel row.genmodelId).2.makers
  rw [hframe]
  rcases getMakerId_cases s row.maker with ⟨id, -, h2⟩ | ⟨-, q, -, h3⟩ | ⟨-, -, h3⟩
  · rw [h2]; exact hr
  · rw [h3]
    simp only
    rw [makers_update_identity]
    exact hr
  · rw [h3]
    simp only
    exact List.mem_append_left _ hr

theorem ingestRow_models_mono {s : SeedState} (row : CatalogRow) :
    ∀ x ∈ stripN s.models, x ∈ stripN (ingestRow s row).models := by
  intro x hx
  have hframe := (getMakerId_frame s row.maker).1
  show x ∈ stripN (getModelId ((getMakerId s row.maker).2) ((getMakerId s row.maker).1)
    row.genmodel row.genmodelId).2.models
  rcases getModelId_cases ((getMakerId s row.maker).2) ((getMakerId s row.maker).1)
      row.genmodel row.genmodelId with ⟨id, -, h2⟩ | ⟨-, q, -, h3⟩ | ⟨-, -, h3⟩
  · rw [h2, hframe]; exact hx
  · rw [h3]
    simp only
    rw [models_update_stripN, hframe]
    exact hx
  · rw [h3]
    simp only
    unfold stripN at hx ⊢
    rw [List.map_append]
    apply List.mem_append_left
    rw [hframe]
    exact hx

theorem ingest_makers_mono (rows : List CatalogRow) :
    ∀ (s : SeedState), ∀ r ∈ s.makers, r ∈ (ingestCatalog s rows).makers := by
  induction rows with
  | nil => intro s r hr; exact hr
  | cons row rows ih =>
    intro s r hr
    exact ih (ingestRow s row) r (ingestRow_makers_mono row r hr)

theorem ingest_models_mono (rows : List CatalogRow) :
    ∀ (s : SeedState), ∀ x ∈ stripN s.models, x ∈ stripN (ingestCatalog s rows).models := by
  induction rows with
  | nil => intro s x hx; exact hx
  | cons row rows ih =>
    intro s x hx
    exact ih (ingestRow s row) x (ingestRow_models_mono row x hx)

theorem keys_eq_of_stripN_eq {l1 l2 : List ModelRow} (h : stripN l1 = stripN l2) :
    l1.map (fun r => (r.maker_id, r.genmodel_id)) =
      l2.map (fun r => (r.maker_id, r.genmodel_id)) := by
  have e1 : l1.map (fun r => (r.maker_id, r.genmodel_id)) = (stripN l1).map Prod.snd := by
    unfold stripN
    rw [List.map_map]
    rfl
  have e2 : l2.map (fun r => (r.maker_id, r.genmodel_id)) = (stripN l2).map Prod.snd := by
    unfold stripN
    rw [List.map_map]
    rfl
  rw [e1, e2, h]

theorem strip_id_unique {l : List ModelRow}
    (hnd : (l.map (fun r => (r.maker_id, r.genmodel_id))).Nodup)
    {a b mid : Nat} {tg : String}
    (ha : (a, mid, tg) ∈ stripN l) (hb : (b, mid, tg) ∈ stripN l) : a = b := by
  unfold stripN at ha hb
  rw [List.mem_map] at ha hb
  obtain ⟨ra, hra, hsa⟩ := ha
  obtain ⟨rb, hrb, hsb⟩ := hb
  simp only [Prod.mk.injEq] at hsa hsb
  have heq : ra = rb := by
    apply List.inj_on_of_nodup_map hnd hra hrb
    show (ra.maker_id, ra.genmodel_id) = (rb.maker_id, rb.genmodel_id)
    rw [hsa.2.1, hsa.2.2, hsb.2.1, hsb.2.2]
  rw [← hsa.1, ← hsb.1, heq]

/-- Maker-phase lockstep: a fresh-cache run `u` over the final table `F`
makes the same decisions and returns the same ids as the original run `s`
did, keeping the table equal to `F` and its cache equal to `s`'s. -/
theorem getMakerId_lockstep {s u F : SeedState} (name : String)
    (hA1 : ∀ r ∈ s.makers, alookup s.makerCache (jsUpper r.name) = some r.id)
    (hFnd : (F.makers.map (fun r => jsUpper r.name)).Nodup)
    (hmem : ∀ r ∈ ((getMakerId s name).2).makers, r ∈ F.makers)
    (hmc : u.makerCache = s.makerCache) (hmk : u.makers = F.makers) :
    (getMakerId u name).1 = (getMakerId s name).1 ∧
    ((getMakerId u name).2).makerCache = ((getMakerId s name).2).makerCache ∧
    ((getMakerId u name).2).makers = F.makers ∧
    ((getMakerId u name).2).modelCache = u.modelCache ∧
    ((getMakerId u name).2).models = u.models := by
  rcases getMakerId_cases_inv name hA1 with ⟨id, h1, h2⟩ | ⟨h1, h2, h3⟩
  · have h1u : alookup u.makerCache (jsUpper (jsTrim name)) = some id := by
      rw [hmc]; exact h1
    rcases getMakerId_cases u name with ⟨id2, g1, g2⟩ | ⟨g1, r, g2, g3⟩ | ⟨g1, g2, g3⟩
    · have hid : id2 = id := by
        rw [h1u] at g1
        exact (Option.some.inj g1).symm
      subst hid
      rw [h2, g2]
      exact ⟨rfl, by rw [hmc], hmk, rfl, rfl⟩
    · rw [h1u] at g1; exact absurd g1 (by simp)
    · rw [h1u] at g1; exact absurd g1 (by simp)
  · have h1u : alookup u.makerCache (jsUpper (jsTrim name)) = none := by
      rw [hmc]; exact h1
    have hnew : (⟨s.nextMakerId, jsTrim name⟩ : MakerRow) ∈ F.makers := by
      apply hmem
      rw [h3]
      simp
    rcases getMakerId_cases u name with ⟨id2, g1, g2⟩ | ⟨g1, r, g2, g3⟩ | ⟨g1, g2, g3⟩
    · rw [h1u] at g1; exact absurd g1 (by simp)
    · have hrmem : r ∈ F.makers := by
        rw [← hmk]; exact List.mem_of_find?_eq_some g2
      have hrname : r.name = jsTrim name := by
        simpa [beq_iff_eq] using List.find?_some g2
      have hreq : r = ⟨s.nextMakerId, jsTrim name⟩ := by
        apply List.inj_on_of_nodup_map hFnd hrmem hnew
        show jsUpper r.name = jsUpper (⟨s.nextMakerId, jsTrim name⟩ : MakerRow).name
        rw [hrname]
      rw [g3, h3]
      refine ⟨?_, ?_, ?_, rfl, rfl⟩
      · show r.id = s.nextMakerId
        rw [hreq]
      · show u.makerCache ++ [(jsUpper (jsTrim name), r.id)] =
          s.makerCache ++ [(jsUpper (jsTrim name), s.nextMakerId)]
        rw [hmc, hreq]
      · show (u.makers.map (fun q =>
            if q.name == jsTrim name then { q with name := jsTrim name } else q)) = F.makers
        rw [makers_update_identity, hmk]
    · exfalso
      have := List.find?_eq_none.mp g2 _ (by rw [hmk]; exact hnew)
      simp [beq_iff_eq] at this

/-- Model-phase lockstep: a fresh-cache run `u` over the final model table
(up to names) makes the same decisions and returns the same ids as the
original run `s`, preserving the table keys/ids and matching `s`'s cache. -/
theorem getModelId_lockstep {s u : SeedState} {Fmodels : List ModelRow}
    (mid : Nat) (gm gid : String)
    (hFnd : (Fmodels.map (fun r => (r.maker_id, r.genmodel_id))).Nodup)
    (hmem : ∀ x ∈ stripN ((getModelId s mid gm gid).2).models, x ∈ stripN Fmodels)
    (hoc : u.modelCache = s.modelCache) (hmd : stripN u.models = stripN Fmodels) :
    (getModelId u mid gm gid).1 = (getModelId s mid gm gid).1 ∧
    ((getModelId u mid gm gid).2).modelCache = ((getModelId s mid gm gid).2).modelCache ∧
    stripN ((getModelId u mid gm gid).2).models = stripN Fmodels ∧
    ((getModelId u mid gm gid).2).makerCache = u.makerCache ∧
    ((getModelId u mid gm gid).2).makers = u.makers := by
  have hund : (u.models.map (fun r => (r.maker_id, r.genmodel_id))).Nodup := by
    rw [keys_eq_of_stripN_eq hmd]
    exact hFnd
  rcases getModelId_cases s mid gm gid with ⟨id, h1, h2⟩ | ⟨h1, r, h2, h3⟩ | ⟨h1, h2, h3⟩
  · have h1u : alookup u.modelCache (modelKey mid gid) = some id := by
      rw [hoc]; exact h1
    rcases getModelId_cases u mid gm gid with ⟨id2, g1, g2⟩ | ⟨g1, r, g2, g3⟩ | ⟨g1, g2, g3⟩
    · have hid : id2 = id := by
        rw [h1u] at g1
        exact (Option.some.inj g1).symm
      subst hid
      rw [h2, g2]
      exact ⟨rfl, by rw [hoc], by rw [hmd], rfl, rfl⟩
    · rw [h1u] at g1; exact absurd g1 (by simp)
    · rw [h1u] at g1; exact absurd g1 (by simp)
  · -- conflict path in s
    have h1u : alookup u.modelCache (modelKey mid gid) = none := by
      rw [hoc]; exact h1
    have hrmem : r ∈ s.models := List.mem_of_find?_eq_some h2
    have hrkey : r.maker_id = mid ∧ r.genmodel_id = jsTrim gid := by
      have := List.find?_some h2
      simpa [beq_iff_eq] using this
    have htrip : (r.id, mid, jsTrim gid) ∈ stripN Fmodels := by
      apply hmem
      rw [h3]
      show (r.id, mid, jsTrim gid) ∈ stripN (s.models.map _)
      rw [models_update_stripN]
      unfold stripN
      rw [List.mem_map]
      exact ⟨r, hrmem, by rw [hrkey.1, hrkey.2]⟩
    have htripu : (r.id, mid, jsTrim gid) ∈ stripN u.models := by rw [hmd]; exact htrip
    have hqex : ∃ q ∈ u.models, q.maker_id = mid ∧ q.genmodel_id = jsTrim gid := by
      unfold stripN at htripu
      rw [List.mem_map] at htripu
      obtain ⟨q, hq, hs⟩ := htripu
      simp only [Prod.mk.injEq] at hs
      exact ⟨q, hq, hs.2.1, hs.2.2⟩
    rcases getModelId_cases u mid gm gid with ⟨id2, g1, g2⟩ | ⟨g1, q, g2, g3⟩ | ⟨g1, g2, g3⟩
    · rw [h1u] at g1; exact absurd g1 (by simp)
    · have hqmem : q ∈ u.models := List.mem_of_find?_eq_some g2
      have hqkey : q.maker_id = mid ∧ q.genmodel_id = jsTrim gid := by
        simpa [beq_iff_eq] using List.find?_some g2
      have hqtrip : (q.id, mid, jsTrim gid) ∈ stripN u.models := by
        unfold stripN
        rw [List.mem_map]
        exact ⟨q, hqmem, by rw [hqkey.1, hqkey.2]⟩
      have hidq : q.id = r.id := strip_id_unique hund hqtrip htripu
      rw [g3, h3]
      refine ⟨hidq, ?_, ?_, rfl, rfl⟩
      · show u.modelCache ++ [(modelKey mid gid, q.id)] =
          s.modelCache ++ [(modelKey mid gid, r.id)]
        rw [hoc, hidq]
      · show stripN (u.models.map _) = stripN Fmodels
        rw [models_update_stripN, hmd]
    · exfalso
      obtain ⟨q, hq, hk1, hk2⟩ := hqex
      have := List.find?_eq_none.mp g2 q hq
      simp [beq_iff_eq, hk1, hk2] at this
  · -- insert path in s
    have h1u : alookup u.modelCache (modelKey mid gid) = none := by
      rw [hoc]; exact h1
    have htrip : (s.nextModelId, mid, jsTrim gid) ∈ stripN Fmodels := by
      apply hmem
      rw [h3]
      unfold stripN
      rw [List.map_append]
      apply List.mem_append_right
      simp
    have htripu : (s.nextModelId, mid, jsTrim gid) ∈ stripN u.models := by
      rw [hmd]; exact htrip
    have hqex : ∃ q ∈ u.models, q.maker_id = mid ∧ q.genmodel_id = jsTrim gid := by
      unfold stripN at htripu
      rw [List.mem_map] at htripu
      obtain ⟨q, hq, hs⟩ := htripu
      simp only [Prod.mk.injEq] at hs
      exact ⟨q, hq, hs.2.1, hs.2.2⟩
    rcases getModelId_cases u mid gm gid with ⟨id2, g1, g2⟩ | ⟨g1, q, g2, g3⟩ | ⟨g1, g2, g3⟩
    · rw [h1u] at g1; exact absurd g1 (by simp)
    · have hqmem : q ∈ u.models := List.mem_of_find?_eq_some g2
      have hqkey : q.maker_id = mid ∧ q.genmodel_id = jsTrim gid := by
        simpa [beq_iff_eq] using List.find?_some g2
      have hqtrip : (q.id, mid, jsTrim gid) ∈ stripN u.models := by
        unfold stripN
        rw [List.mem_map]
        exact ⟨q, hqmem, by rw [hqkey.1, hqkey.2]⟩
      have hidq : q.id = s.nextModelId := strip_id_unique hund hqtrip htripu
      rw [g3, h3]
      refine ⟨hidq, ?_, ?_, rfl, rfl⟩
      · show u.modelCache ++ [(modelKey mid gid, q.id)] =
          s.modelCache ++ [(modelKey mid gid, s.nextModelId)]
        rw [hoc, hidq]
      · show stripN (u.models.map _) = stripN Fmodels
        rw [models_update_stripN, hmd]
    · exfalso
      obtain ⟨q, hq, hk1, hk2⟩ := hqex
      have := List.find?_eq_none.mp g2 q hq
      simp [beq_iff_eq, hk1, hk2] at this

/-- One-row lockstep: combining the maker and model phases. -/
theorem ingestRow_lockstep {s u F : SeedState} (row : CatalogRow)
    (hA1 : ∀ r ∈ s.makers, alookup s.makerCache (jsUpper r.name) = some r.id)
    (hFmkN : (F.makers.map (fun r => jsUpper r.name)).Nodup)
    (hFmdN : (F.models.map (fun r => (r.maker_id, r.genmodel_id))).Nodup)
    (hsubM : ∀ r ∈ (ingestRow s row).makers, r ∈ F.makers)
    (hsubD : ∀ x ∈ stripN (ingestRow s row).models, x ∈ stripN F.models)
    (hmc : u.makerCache = s.makerCache) (hoc : u.modelCache = s.modelCache)
    (hmk : u.makers = F.makers) (hmd : stripN u.models = stripN F.models) :
    (ingestRow u row).makerCache = (ingestRow s row).makerCache ∧
    (ingestRow u row).modelCache = (ingestRow s row).modelCache ∧
    (ingestRow u row).makers = F.makers ∧
    stripN (ingestRow u row).models = stripN F.models := by
  have hmemM : ∀ r ∈ ((getMakerId s row.maker).2).makers, r ∈ F.makers := by
    intro r hr
    apply hsubM
    show r ∈ (getModelId ((getMakerId s row.maker).2) ((getMakerId s row.maker).1)
      row.genmodel row.genmodelId).2.makers
    rw [(getModelId_frame _ _ _ _).1]
    exact hr
  obtain ⟨hid, hcac, humk, humc, hums⟩ := getMakerId_lockstep row.maker hA1 hFmkN hmemM hmc hmk
  have hocc : ((getMakerId u row.maker).2).modelCache =
      ((getMakerId s row.maker).2).modelCache := by
    rw [humc, (getMakerId_frame s row.maker).2.1, hoc]
  have hmdd : stripN ((getMakerId u row.maker).2).models = stripN F.models := by
    rw [hums, hmd]
  have hmemD : ∀ x ∈ stripN ((getModelId ((getMakerId s row.maker).2)
      ((getMakerId s row.maker).1) row.genmodel row.genmodelId).2).models,
      x ∈ stripN F.models := hsubD
  obtain ⟨gid2, gcac, gstr, gmkc, gmks⟩ :=
    @getModelId_lockstep ((getMakerId s row.maker).2) ((getMakerId u row.maker).2) F.models
      ((getMakerId s row.maker).1) row.genmodel row.genmodelId hFmdN hmemD hocc hmdd
  have hu : ingestRow u row = (getModelId ((getMakerId u row.maker).2)
      ((getMakerId s row.maker).1) row.genmodel row.genmodelId).2 := by
    show (getModelId ((getMakerId u row.maker).2) ((getMakerId u row.maker).1)
      row.genmodel row.genmodelId).2 = _
    rw [hid]
  have hs : ingestRow s row = (getModelId ((getMakerId s row.maker).2)
      ((getMakerId s row.maker).1) row.genmodel row.genmodelId).2 := rfl
  rw [hu, hs]
  refine ⟨?_, gcac, ?_, gstr⟩
  · rw [(getModelId_frame _ _ _ _).2.1, (getModelId_frame _ _ _ _).2.1]
    exact hcac
  · rw [(getModelId_frame _ _ _ _).1]
    exact humk

/-- Full-run lockstep: re-running ingestion with fresh caches over the tables
a previous run produced keeps the maker table identical and the model table
identical up to display names (same rows, ids, natural keys). -/
theorem ingest_lockstep (todo : List CatalogRow) :
    ∀ (s u : SeedState), Inv1 s →
      u.makerCache = s.makerCache → u.modelCache = s.modelCache →
      u.makers = (ingestCatalog s todo).makers →
      stripN u.models = stripN (ingestCatalog s todo).models →
      (ingestCatalog u todo).makers = (ingestCatalog s todo).makers ∧
      stripN (ingestCatalog u todo).models = stripN (ingestCatalog s todo).models := by
  induction todo with
  | nil =>
    intro s u _ _ _ h3 h4
    exact ⟨h3, h4⟩
  | cons row todo ih =>
    intro s u hInv hmc hoc hmk hmd
    have hfold : ingestCatalog s (row :: todo) = ingestCatalog (ingestRow s row) todo := rfl
    have hInvF : Inv1 (ingestCatalog (ingestRow s row) todo) :=
      Inv1_ingest todo _ (Inv1_ingestRow row hInv)
    have hsubM : ∀ r ∈ (ingestRow s row).makers,
        r ∈ (ingestCatalog (ingestRow s row) todo).makers :=
      fun r hr => ingest_makers_mono todo _ r hr
    have hsubD : ∀ x ∈ stripN (ingestRow s row).models,
        x ∈ stripN (ingestCatalog (ingestRow s row) todo).models :=
      fun x hx => ingest_models_mono todo _ x hx
    obtain ⟨l1, l2, l3, l4⟩ :=
      @ingestRow_lockstep s u (ingestCatalog (ingestRow s row) todo) row hInv.1
        hInvF.2.1 hInvF.2.2 hsubM hsubD hmc hoc
        (by rw [hfold] at hmk; exact hmk) (by rw [hfold] at hmd; exact hmd)
    have hmain := ih (ingestRow s row) (ingestRow u row) (Inv1_ingestRow row hInv) l1 l2 l3 l4
    rw [hfold]
    exact hmain

/-- C8 (confirmed): catalog ingestion is idempotent across a re-run with
identical source rows.  A second run in a fresh process (the database tables
and `SERIAL` sequences persist; the in-memory caches do not) leaves the maker
table literally unchanged and the model table unchanged in row count, ids,
and natural keys `(maker_id, genmodel_id)` — the upsert is keyed by the
natural keys (maker name; `(maker_id, genmodel_id)` for models), so no
duplicate rows are created and no existing id changes. -/
theorem c8_catalog_ingestion_idempotent (rows : List CatalogRow) :
    (ingestCatalog (resetCaches (ingestCatalog initialSeedState rows)) rows).makers =
      (ingestCatalog initialSeedState rows).makers ∧
    stripN (ingestCatalog (resetCaches (ingestCatalog initialSeedState rows)) rows).models =
      stripN (ingestCatalog initialSeedState rows).models :=
  ingest_lockstep rows initialSeedState (resetCaches (ingestCatalog initialSeedState rows))
    Inv1_initial rfl rfl rfl rfl

theorem alookup_append_one_eq_some {c : List (String × Nat)} {K K' : String} {v w : Nat} :
    alookup (c ++ [(K, v)]) K' = some w ↔
      alookup c K' = some w ∨ (alookup c K' = none ∧ K = K' ∧ v = w) := by
  cases hf : alookup c K' with
  | some u =>
    rw [alookup_append_some hf]
    simp
  | none =>
    unfold alookup at hf ⊢
    cases hff : c.find? (fun e => e.1 == K') with
    | some e => rw [hff] at hf; simp at hf
    | none =>
      rw [find?_append_none hff]
      by_cases hk : K = K'
      · subst hk
        simp [List.find?]
      · have hb : (K == K') = false := by simp [hk]
        simp [List.find?, hb, hk]

/-- Casing bookkeeping for a single-process run: a maker-cache key exists
exactly for the processed rows' normalized names, and every maker row stores
the trimmed name of the *first* processed row with its normalized name. -/
theorem ingest_casing_aux (rows : List CatalogRow) :
    (∀ K, (∃ v, alookup (ingestCatalog initialSeedState rows).makerCache K = some v) ↔
       ∃ w ∈ rows, jsUpper (jsTrim w.maker) = K) ∧
    (∀ r ∈ (ingestCatalog initialSeedState rows).makers,
      (rows.find? (fun w => jsUpper (jsTrim w.maker) == jsUpper r.name)).map
        (fun w => jsTrim w.maker) = some r.name) := by
  induction rows using List.reverseRecOn with
  | nil =>
    constructor
    · intro K
      constructor
      · rintro ⟨v, hv⟩
        simp [ingestCatalog, initialSeedState, alookup, List.find?] at hv
      · rintro ⟨w, hw, -⟩
        exact absurd hw (List.not_mem_nil w)
    · intro r hr
      simp [ingestCatalog, initialSeedState] at hr
  | append_singleton done row ih =>
    obtain ⟨ihK, ihC⟩ := ih
    have hInv : Inv1 (ingestCatalog initialSeedState done) :=
      Inv1_ingest done _ Inv1_initial
    have hfold : ingestCatalog initialSeedState (done ++ [row]) =
        ingestRow (ingestCatalog initialSeedState done) row := by
      unfold ingestCatalog
      rw [List.foldl_append]
      rfl
    set st := ingestCatalog initialSeedState done with hst
    have hmkrs : (ingestRow st row).makers = ((getMakerId st row.maker).2).makers :=
      (getModelId_frame _ _ _ _).1
    have hmkc : (ingestRow st row).makerCache = ((getMakerId st row.maker).2).makerCache :=
      (getModelId_frame _ _ _ _).2.1
    rcases getMakerId_cases_inv row.maker hInv.1 with ⟨id, h1, h2⟩ | ⟨h1, h2, h3⟩
    · -- cache hit: maker state unchanged
      rw [hfold, hmkrs, hmkc, h2]
      constructor
      · intro K
        rw [ihK K]
        constructor
        · rintro ⟨w, hw, hk⟩
          exact ⟨w, List.mem_append_left _ hw, hk⟩
        · rintro ⟨w, hw, hk⟩
          rcases List.mem_append.1 hw with hw | hw
          · exact ⟨w, hw, hk⟩
          · rw [List.mem_singleton] at hw
            subst hw
            subst hk
            exact (ihK _).1 ⟨id, h1⟩
      · intro r hr
        have := ihC r hr
        cases hfd : done.find? (fun w => jsUpper (jsTrim w.maker) == jsUpper r.name) with
        | none => rw [hfd] at this; simp at this
        | some w0 =>
          rw [hfd] at this
          rw [find?_append_some hfd]
          exact this
    · -- cache miss: a fresh row is inserted
      rw [hfold, hmkrs, hmkc, h3]
      constructor
      · intro K
        simp only
        constructor
        · rintro ⟨v, hv⟩
          rcases alookup_append_one_eq_some.mp hv with hv | ⟨-, hk, -⟩
          · obtain ⟨w, hw, hk⟩ := (ihK K).1 ⟨v, hv⟩
            exact ⟨w, List.mem_append_left _ hw, hk⟩
          · exact ⟨row, List.mem_append_right _ (List.mem_singleton.mpr rfl), hk⟩
        · rintro ⟨w, hw, hk⟩
          rcases List.mem_append.1 hw with hw | hw
          · obtain ⟨v, hv⟩ := (ihK K).2 ⟨w, hw, hk⟩
            exact ⟨v, alookup_append_one_eq_some.mpr (.inl hv)⟩
          · rw [List.mem_singleton] at hw
            rw [hw] at hk
            refine ⟨st.nextMakerId, alookup_append_one_eq_some.mpr (.inr ⟨?_, hk, rfl⟩)⟩
            cases hlk : alookup st.makerCache K with
            | none => rfl
            | some v =>
              exfalso
              obtain ⟨w1, hw1, hk1⟩ := (ihK K).1 ⟨v, hlk⟩
              obtain ⟨v2, hv2⟩ :=
                (ihK (jsUpper (jsTrim row.maker))).2 ⟨w1, hw1, hk1.trans hk.symm⟩
              rw [h1] at hv2
              exact Option.noConfusion hv2
      · intro r hr
        simp only [List.mem_append, List.mem_singleton] at hr
        rcases hr with hr | rfl
        · have := ihC r hr
          cases hfd : done.find? (fun w => jsUpper (jsTrim w.maker) == jsUpper r.name) with
          | none => rw [hfd] at this; simp at this
          | some w0 =>
            rw [hfd] at this
            rw [find?_append_some hfd]
            exact this
        · -- the freshly inserted row: no earlier row has its key
          have hnone : done.find?
              (fun w => jsUpper (jsTrim w.maker) ==
                jsUpper (⟨st.nextMakerId, jsTrim row.maker⟩ : MakerRow).name) = none := by
            cases hfd : done.find? (fun w => jsUpper (jsTrim w.maker) ==
                jsUpper (⟨st.nextMakerId, jsTrim row.maker⟩ : MakerRow).name) with
            | none => rfl
            | some w0 =>
              exfalso
              have hw0 := List.mem_of_find?_eq_some hfd
              have hk0 : jsUpper (jsTrim w0.maker) = jsUpper (jsTrim row.maker) := by
                simpa [beq_iff_eq] using List.find?_some hfd
              obtain ⟨v, hv⟩ := (ihK (jsUpper (jsTrim row.maker))).2 ⟨w0, hw0, hk0⟩
              rw [h1] at hv
              exact Option.noConfusion hv
          rw [find?_append_none hnone]
          have hself : (jsUpper (jsTrim row.maker) ==
              jsUpper (⟨st.nextMakerId, jsTrim row.maker⟩ : MakerRow).name) = true := by
            simp [beq_iff_eq]
          simp [List.find?, hself]

/-- C9 counterexample: across two ingestion runs (the per-run in-memory caches
are fresh in a new process) the maker upsert does NOT deduplicate
case-insensitively.  Ingesting `"BMW"` and then, in a second run, `"bmw"`
creates a SECOND maker row, because the cache key is upper-cased but the SQL
conflict target `UNIQUE(name)` and the pre-insert lookup are case-sensitive. -/
theorem c9_cross_run_casing_counterexample :
    (ingestCatalog (resetCaches (ingestCatalog initialSeedState
        [⟨"BMW", "3", "g3"⟩])) [⟨"bmw", "3", "g3"⟩]).makers =
      [⟨1, "BMW"⟩, ⟨2, "bmw"⟩] ∧
    jsUpper "bmw" = jsUpper "BMW" := by
  constructor
  · rfl
  · rfl

/-- C9 (amended): WITHIN a single ingestion run the claimed invariant does
hold — the stored maker names are pairwise distinct after case-normalization,
and every maker row stores the trimmed name, with original casing, of the
first source row whose normalized maker name matches it; later rows that
differ only in casing neither add a row nor change the stored casing. -/
theorem c9_maker_casing_within_run (rows : List CatalogRow) :
    ((ingestCatalog initialSeedState rows).makers.map (fun r => jsUpper r.name)).Nodup ∧
    ∀ r ∈ (ingestCatalog initialSeedState rows).makers,
      (rows.find? (fun w => jsUpper (jsTrim w.maker) == jsUpper r.name)).map
        (fun w => jsTrim w.maker) = some r.name :=
  ⟨(Inv1_ingest rows initialSeedState Inv1_initial).2.1, (ingest_casing_aux rows).2⟩

theorem c9_maker_casing_within_run_witness :
    (⟨1, "BMW"⟩ : MakerRow) ∈ (ingestCatalog initialSeedState
      [(⟨"BMW", "3", "g3"⟩ : CatalogRow), ⟨" bmw ", "5", "g5"⟩]).makers ∧
    (([(⟨"BMW", "3", "g3"⟩ : CatalogRow), ⟨" bmw ", "5", "g5"⟩].find?
        (fun w => jsUpper (jsTrim w.maker) ==
          jsUpper (⟨1, "BMW"⟩ : MakerRow).name)).map
      (fun w => jsTrim w.maker)) = some (⟨1, "BMW"⟩ : MakerRow).name :=
  ⟨List.mem_singleton.mpr rfl,
    (c9_maker_casing_within_run [⟨"BMW", "3", "g3"⟩, ⟨" bmw ", "5", "g5"⟩]).2
      ⟨1, "BMW"⟩ (List.mem_singleton.mpr rfl)⟩

/-! ### The `listings` table upsert of `seedListings` -/

/-- One CSV record of the listings feed, with the scalar conversions of
`seedListings` already applied (`record.x || null` as `Option`, `parseFloat` /
`parseIntOrNull` results, the specs JSON round-trip result). -/
structure ListingRecord where
  url : Option String
  title : Option String
  price_eur : Option ℚ
  currency : Option String
  mileage_km : Option ℚ
  year : Option Int
  location : Option String
  description : Option String
  images : Option String
  specs : Option String
deriving DecidableEq, Repr

/-- The 13-column VALUES tuple passed to the INSERT. -/
structure ListingValues where
  url : Option String
  title : Option String
  price_eur : Option ℚ
  currency : Option String
  mileage_km : Option ℚ
  year : Option Int
  location : Option String
  description : Option String
  images : Option String
  specs : Option String
  model_id : Option Nat
  extracted_make : Option String
  extracted_model : Option String
deriving DecidableEq, Repr

/-- A stored row of the `listings` table. -/
structure ListingsRow where
  id : Nat
  url : Option String
  title : Option String
  price_eur : Option ℚ
  currency : Option String
  mileage_km : Option ℚ
  year : Option Int
  location : Option String
  description : Option String
  images : Option String
  specs : Option String
  model_id : Option Nat
  extracted_make : Option String
  extracted_model : Option String
deriving DecidableEq, Repr

/-- Build the VALUES tuple for one record: extract make/model from the raw
title, reconcile the model id with the in-seeder matcher, pass every other
column through. -/
def buildValues (makers : List MakerRow) (models : List ModelRow)
    (rec : ListingRecord) : ListingValues :=
  let em := extractMakeModel (rec.title.getD "")
  { url := rec.url, title := rec.title, price_eur := rec.price_eur,
    currency := rec.currency, mileage_km := rec.mileage_km, year := rec.year,
    location := rec.location, description := rec.description,
    images := rec.images, specs := rec.specs,
    model_id := matchListing makers models em.make em.model,
    extracted_make := em.make, extracted_model := em.model }

def rowOfValues (id : Nat) (v : ListingValues) : ListingsRow :=
  ⟨id, v.url, v.title, v.price_eur, v.currency, v.mileage_km, v.year,
    v.location, v.description, v.images, v.specs, v.model_id,
    v.extracted_make, v.extracted_model⟩

/-- `INSERT INTO listings (...) VALUES (...) ON CONFLICT (url) DO UPDATE SET
title, price_eur, mileage_km, year, model_id = EXCLUDED....`.  A NULL url
never conflicts (SQL UNIQUE ignores NULLs); on a url conflict only the five
listed columns of the stored row are overwritten.  The id sequence advances on
every attempt (the default is evaluated before the conflict check). -/
def upsertListing (tbl : List ListingsRow) (nextId : Nat) (v : ListingValues) :
    List ListingsRow × Nat :=
  match v.url with
  | none => (tbl ++ [rowOfValues nextId v], nextId + 1)
  | some u =>
    match tbl.find? (fun r => r.url == some u) with
    | some _ =>
      (tbl.map (fun r =>
        if r.url == some u then
          { r with title := v.title, price_eur := v.price_eur,
                   mileage_km := v.mileage_km, year := v.year,
                   model_id := v.model_id }
        else r), nextId + 1)
    | none => (tbl ++ [rowOfValues nextId v], nextId + 1)

/-- The per-record body of the `seedListings` loop, restricted to the
`listings` table state. -/
def processListing (makers : List MakerRow) (models : List ModelRow)
    (tbl : List ListingsRow) (nextId : Nat) (rec : ListingRecord) :
    List ListingsRow × Nat :=
  upsertListing tbl nextId (buildValues makers models rec)

/-- C10: frame condition of listing re-ingestion.  When a record's url already
exists in the `listings` table, the upsert leaves the table length unchanged
and, row by row: the stored id, url, currency, location, description, images,
specs, extracted_make and extracted_model always keep their previous values;
rows whose url differs are untouched entirely; and the conflicting row gets
exactly title, price_eur, mileage_km, year and model_id from the new record —
in particular extracted_make / extracted_model are NOT recomputed from the new
title even though the freshly extracted pair is used to compute the new
model_id. -/
theorem c10_listing_upsert_frame (makers : List MakerRow) (models : List ModelRow)
    (tbl : List ListingsRow) (nextId : Nat) (rec : ListingRecord)
    (u : String) (r0 : ListingsRow)
    (hu : rec.url = some u)
    (hex : tbl.find? (fun r => r.url == some u) = some r0) :
    List.Forall₂ (fun r r2 =>
      r2.id = r.id ∧ r2.url = r.url ∧ r2.currency = r.currency ∧
      r2.location = r.location ∧ r2.description = r.description ∧
      r2.images = r.images ∧ r2.specs = r.specs ∧
      r2.extracted_make = r.extracted_make ∧
      r2.extracted_model = r.extracted_model ∧
      (r.url = some u →
        r2.title = rec.title ∧ r2.price_eur = rec.price_eur ∧
        r2.mileage_km = rec.mileage_km ∧ r2.year = rec.year ∧
        r2.model_id = matchListing makers models
          (extractMakeModel (rec.title.getD "")).make
          (extractMakeModel (rec.title.getD "")).model) ∧
      (r.url ≠ some u → r2 = r))
      tbl (processListing makers models tbl nextId rec).1 := by
  unfold processListing upsertListing
  have hvu : (buildValues makers models rec).url = some u := by
    simp only [buildValues]
    exact hu
  simp only [hvu, hex]
  rw [List.forall₂_map_right_iff]
  rw [List.forall₂_same]
  intro r hr
  by_cases hru : r.url = some u
  · have hb : (r.url == some u) = true := by simp [hru]
    rw [if_pos hb]
    refine ⟨rfl, rfl, rfl, rfl, rfl, rfl, rfl, rfl, rfl, ?_, ?_⟩
    · exact fun _ => ⟨rfl, rfl, rfl, rfl, rfl⟩
    · intro hne
      exact absurd hru hne
  · have hb : (r.url == some u) = false := by simp [hru]
    rw [if_neg (by simp [hb])]
    refine ⟨rfl, rfl, rfl, rfl, rfl, rfl, rfl, rfl, rfl, ?_, fun _ => rfl⟩
    intro hcontra
    exact absurd hcontra hru

theorem c10_listing_upsert_frame_witness :
    (([(⟨7, some "u1", some "Audi A4", some 9000, some "EUR", some 120000,
          some 2010, some "Lisboa", some "nice", some "img", some "sp",
          some 3, some "Audi", some "A4"⟩ : ListingsRow)].find?
        (fun r => r.url == some "u1")) = some
        (⟨7, some "u1", some "Audi A4", some 9000, some "EUR", some 120000,
          some 2010, some "Lisboa", some "nice", some "img", some "sp",
          some 3, some "Audi", some "A4"⟩ : ListingsRow)) ∧
    List.Forall₂ (fun r r2 =>
      r2.id = r.id ∧ r2.url = r.url ∧ r2.currency = r.currency ∧
      r2.location = r.location ∧ r2.description = r.description ∧
      r2.images = r.images ∧ r2.specs = r.specs ∧
      r2.extracted_make = r.extracted_make ∧
      r2.extracted_model = r.extracted_model ∧
      (r.url = some "u1" →
        r2.title = (⟨some "u1", some "BMW 320d", some 8000, some "USD",
          some 100000, some 2012, some "Porto", some "d", some "i", some "s"⟩
            : ListingRecord).title ∧
        r2.price_eur = some 8000 ∧ r2.mileage_km = some 100000 ∧
        r2.year = some 2012 ∧
        r2.model_id = matchListing [] []
          (extractMakeModel ((some "BMW 320d").getD "")).make
          (extractMakeModel ((some "BMW 320d").getD "")).model) ∧
      (r.url ≠ some "u1" → r2 = r))
      [(⟨7, some "u1", some "Audi A4", some 9000, some "EUR", some 120000,
          some 2010, some "Lisboa", some "nice", some "img", some "sp",
          some 3, some "Audi", some "A4"⟩ : ListingsRow)]
      (processListing [] []
        [(⟨7, some "u1", some "Audi A4", some 9000, some "EUR", some 120000,
          some 2010, some "Lisboa", some "nice", some "img", some "sp",
          some 3, some "Audi", some "A4"⟩ : ListingsRow)] 11
        (⟨some "u1", some "BMW 320d", some 8000, some "USD", some 100000,
          some 2012, some "Porto", some "d", some "i", some "s"⟩
            : ListingRecord)).1 :=
  ⟨rfl,
    c10_listing_upsert_frame [] []
      [⟨7, some "u1", some "Audi A4", some 9000, some "EUR", some 120000,
        some 2010, some "Lisboa", some "nice", some "img", some "sp",
        some 3, some "Audi", some "A4"⟩] 11
      ⟨some "u1", some "BMW 320d", some 8000, some "USD", some 100000,
        some 2012, some "Porto", some "d", some "i", some "s"⟩ "u1"
      ⟨7, some "u1", some "Audi A4", some 9000, some "EUR", some 120000,
        some 2010, some "Lisboa", some "nice", some "img", some "sp",
        some 3, some "Audi", some "A4"⟩ rfl rfl⟩

end CarMarket

